import Mathlib

/-! # srclib: unit registry, dependency resolution and build-rule assembly

A shallow embedding of the Go packages `unit`, `dep2` and `build`, of the
uniqueness check of package `grapher2` and of the resolver of the Python
toolchain.

Modelling conventions.

* Go strings are Lean strings; slicing and searching work on the underlying
  character sequence.  The only separator that is searched for is the one-byte
  string `"@"`, so byte offsets and character offsets cut a string at the same
  places.
* A Go `map[K]V` is an association list with at most one entry per key; the
  assignment `m[k] = v` replaces the entry of `k`.
* A package-level variable becomes a field of an explicit state record, and a
  function that may `panic` returns the state it leaves behind together with
  the panic message, if any.
* A non-nil pointer is modelled by the value it points to; an interface value
  that may be `nil` is an `Option`.
* Resolvers and rule makers are functions of their arguments: the pointer (or
  rule list) and the error they return, the error as its message.
* Functions of other packages that are not at hand (`repo.MakeURI`, the verbs
  `%q` and `%+v` of `fmt`) are parameters, and what a call into another package
  comes back with (building and running a command, the JSON calls) is an input.
-/

namespace Srclib

/-! ## Go maps -/

/-- A Go map, as an association list. -/
abbrev GoMap (K V : Type) := List (K × V)

namespace GoMap

variable {K V : Type} [DecidableEq K]

/-- The comma-ok lookup `v, ok := m[k]`: `none` when `k` is not a key. -/
def get (m : GoMap K V) (k : K) : Option V :=
  match m with
  | [] => none
  | (k', v) :: rest => if k' = k then some v else get rest k

/-- Whether `k` is a key of `m`. -/
def has (m : GoMap K V) (k : K) : Bool := (get m k).isSome

/-- The assignment `m[k] = v`. -/
def set (m : GoMap K V) (k : K) (v : V) : GoMap K V :=
  (k, v) :: m.filter (fun p => decide (p.1 ≠ k))

end GoMap

/-! ## Package `strings` -/

/-- Search loop of `strings.Index`: `i` is the offset of `s` in the whole string. -/
def indexFrom (substr : List Char) : List Char → Nat → Int
  | [], i => if substr = [] then (i : Int) else -1
  | c :: cs, i =>
    if substr.isPrefixOf (c :: cs) then (i : Int) else indexFrom substr cs (i + 1)

/-- The function `strings.Index(s, substr)`: the offset of the first occurrence of
`substr` in `s`, or `-1` when there is none. -/
def stringsIndex (s substr : String) : Int := indexFrom substr.data s.data 0

/-- The slice expression `s[:hi]`. -/
def sliceTo (s : String) (hi : Nat) : String := String.mk (s.data.take hi)

/-- The slice expression `s[lo:]`. -/
def sliceFrom (s : String) (lo : Nat) : String := String.mk (s.data.drop lo)

/-! ## Package `unit` -/

/-- A non-nil value of interface type `SourceUnit`: its dynamic type (what
`reflect.TypeOf` returns) and the results of its three methods. -/
structure SourceUnit where
  /-- The dynamic type, `reflect.TypeOf(u)`. -/
  goType : String
  /-- Result of `Name()`. -/
  Name : String
  /-- Result of `RootDir()`. -/
  RootDir : String
  /-- Result of `Paths()`. -/
  Paths : List String
  deriving DecidableEq, Repr

/-- The package-level variables `Types` and `TypeNames`. -/
structure Registry where
  /-- The map `Types`, from type name to empty instance. -/
  Types : GoMap String SourceUnit
  /-- The map `TypeNames`, from `reflect.Type` to type name. -/
  TypeNames : GoMap String String
  deriving DecidableEq, Repr

/-- Both maps as created by `make`. -/
def Registry.empty : Registry := ⟨[], []⟩

/-- The function `Register(name, emptyInstance)`.  The first component is the state the
call leaves behind (the write to `Types` precedes the last two checks), the
second the panic message, `none` when the call returns normally. -/
def Register (s : Registry) (name : String) (emptyInstance : Option SourceUnit) :
    Registry × Option String :=
  if GoMap.has s.Types name then
    (s, some ("unit: Register called twice for type name " ++ name))
  else
    match emptyInstance with
    | none => (s, some "unit: Register emptyInstance is nil")
    | some e =>
      let s1 : Registry := ⟨GoMap.set s.Types name e, s.TypeNames⟩
      let typ := e.goType
      if GoMap.has s1.TypeNames typ then
        (s1, some ("unit: Register called twice for type " ++ typ))
      else if name = "" then
        (s1, some "unit: Register name is empty")
      else
        (⟨s1.Types, GoMap.set s1.TypeNames typ name⟩, none)

/-- The function `Type(u)`: `TypeNames[reflect.TypeOf(u)]`, the empty string when the
type is not registered. -/
def «Type» (s : Registry) (u : SourceUnit) : String :=
  (GoMap.get s.TypeNames u.goType).getD ""

/-- The variable `idSeparator`. -/
def idSeparator : String := "@"

/-- The function `MakeID(u)`. -/
def MakeID (s : Registry) (u : SourceUnit) : String :=
  u.Name ++ idSeparator ++ «Type» s u

/-- Result triple of `ParseID`. -/
structure ParsedID where
  /-- The named result `name`. -/
  name : String
  /-- The named result `typ`. -/
  typ : String
  /-- The named result `err`, `none` for a nil error. -/
  err : Option String
  deriving DecidableEq, Repr

/-- The function `ParseID(unitID)`. -/
def ParseID (unitID : String) : ParsedID :=
  let pos := stringsIndex unitID idSeparator
  if pos = -1 then
    ⟨"", "", some "no \"@\" in source unit ID"⟩
  else
    ⟨sliceTo unitID pos.toNat, sliceFrom unitID (pos.toNat + idSeparator.length), none⟩

/-- A call `Register(name, emptyInstance)`. -/
abbrev RegisterCall := String × Option SourceUnit

/-- The registry after a sequence of `Register` calls, made in order. -/
def registerSeq (s : Registry) : List RegisterCall → Registry
  | [] => s
  | c :: cs => registerSeq (Register s c.1 c.2).1 cs

/-- No call of the sequence panics. -/
def noPanic (s : Registry) : List RegisterCall → Prop
  | [] => True
  | c :: cs => (Register s c.1 c.2).2 = none ∧ noPanic (Register s c.1 c.2).1 cs

/-- The two maps are inverse to each other. -/
def MutuallyInverse (s : Registry) : Prop :=
  (∀ n e, GoMap.get s.Types n = some e → GoMap.get s.TypeNames e.goType = some n) ∧
  (∀ t n, GoMap.get s.TypeNames t = some n →
    ∃ e, GoMap.get s.Types n = some e ∧ e.goType = t)

/-! ## Package `dep2` -/

/-- Modelled from the spec: the struct `RawDependency`, declared in a file of package
`dep2` that is not at hand; the fields are the ones the spec lists and the code
reads or sets.  The payload `Target` is kept as its serialised text. -/
structure RawDependency where
  /-- Field `FromUnit`. -/
  FromUnit : String
  /-- Field `FromUnitType`. -/
  FromUnitType : String
  /-- Field `FromFile`. -/
  FromFile : String
  /-- Field `TargetType`, the key into `Resolvers`. -/
  TargetType : String
  /-- Field `Target`. -/
  Target : String
  deriving DecidableEq, Repr

/-- The struct `ResolvedTarget`. -/
structure ResolvedTarget where
  /-- Field `ToRepoCloneURL`. -/
  ToRepoCloneURL : String
  /-- Field `ToUnit`. -/
  ToUnit : String
  /-- Field `ToUnitType`. -/
  ToUnitType : String
  /-- Field `ToVersionString`. -/
  ToVersionString : String
  /-- Field `ToRevSpec`. -/
  ToRevSpec : String
  deriving DecidableEq, Repr

/-- Modelled from the spec: the struct `ResolvedDep`, declared in a file of package
`dep2` that is not at hand; the fields are those of the composite literal in
`ResolveAll`. -/
structure ResolvedDep where
  /-- Field `FromRepo`. -/
  FromRepo : String
  /-- Field `FromUnit`. -/
  FromUnit : String
  /-- Field `FromUnitType`. -/
  FromUnitType : String
  /-- Field `ToRepo`. -/
  ToRepo : String
  /-- Field `ToUnit`. -/
  ToUnit : String
  /-- Field `ToUnitType`. -/
  ToUnitType : String
  /-- Field `ToVersionString`. -/
  ToVersionString : String
  /-- Field `ToRevSpec`. -/
  ToRevSpec : String
  deriving DecidableEq, Repr

/-- Modelled from the spec: the struct `config.Repository`, of which the code reads the
field `URI` only. -/
structure Repository where
  /-- Field `URI`. -/
  URI : String
  deriving DecidableEq, Repr

/-- The method `Resolve` of a non-nil `Resolver`: the returned pointer (`none` for nil)
and the returned error (`none` for nil, otherwise its message).  The task
context has type `Ctx`. -/
abbrev Resolver (Ctx : Type) :=
  RawDependency → Repository → Ctx → Option ResolvedTarget × Option String

/-- The function `RegisterResolver(targetType, resolver)` on the map `Resolvers`: the map
it leaves behind and the panic message, if any. -/
def RegisterResolver {Ctx : Type} (Resolvers : GoMap String (Resolver Ctx))
    (targetType : String) (resolver : Option (Resolver Ctx)) :
    GoMap String (Resolver Ctx) × Option String :=
  if GoMap.has Resolvers targetType then
    (Resolvers, some ("dep2: RegisterResolver called twice for target type " ++ targetType))
  else
    match resolver with
    | none => (Resolvers, some "dep2: RegisterResolver resolver is nil")
    | some r => (GoMap.set Resolvers targetType r, none)

/-- The function `Resolve(dep, c, x)`.  The parameter `quote` is the rendering of a string
by the verb `%q` of package `fmt`. -/
def Resolve {Ctx : Type} (quote : String → String) (Resolvers : GoMap String (Resolver Ctx))
    (dep : RawDependency) (c : Repository) (x : Ctx) :
    Option ResolvedTarget × Option String :=
  match GoMap.get Resolvers dep.TargetType with
  | none =>
    (none, some ("no resolver registered for raw dependency target type "
      ++ quote dep.TargetType))
  | some r => r dep c x

/-- The composite literal `&ResolvedDep{...}` in `ResolveAll`.  The parameter `MakeURI` is
the function `repo.MakeURI`. -/
def mkResolvedDep (MakeURI : String → String) (c : Repository) (rawDep : RawDependency)
    (rt : ResolvedTarget) : ResolvedDep :=
  { FromRepo := c.URI
    FromUnit := rawDep.FromUnit
    FromUnitType := rawDep.FromUnitType
    ToRepo := MakeURI rt.ToRepoCloneURL
    ToUnit := rt.ToUnit
    ToUnitType := rt.ToUnitType
    ToVersionString := rt.ToVersionString
    ToRevSpec := rt.ToRevSpec }

/-- The loop of `ResolveAll`, entered with the remaining dependencies and the current
value of `resolved`. -/
def resolveLoop {Ctx : Type} (quote MakeURI : String → String)
    (Resolvers : GoMap String (Resolver Ctx)) (c : Repository) (x : Ctx) :
    List RawDependency → List ResolvedDep → List ResolvedDep × Option String
  | [], resolved => (resolved, none)
  | rawDep :: rest, resolved =>
    match Resolve quote Resolvers rawDep c x with
    | (_, some err) => ([], some err)
    | (none, none) => resolveLoop quote MakeURI Resolvers c x rest resolved
    | (some rt, none) =>
      resolveLoop quote MakeURI Resolvers c x rest
        (resolved ++ [mkResolvedDep MakeURI c rawDep rt])

/-- The function `ResolveAll(rawDeps, c, x)`; a nil slice is the empty list. -/
def ResolveAll {Ctx : Type} (quote MakeURI : String → String)
    (Resolvers : GoMap String (Resolver Ctx)) (rawDeps : List RawDependency)
    (c : Repository) (x : Ctx) : List ResolvedDep × Option String :=
  resolveLoop quote MakeURI Resolvers c x rawDeps []

/-- The edge of one raw dependency, if its resolution is non-nil. -/
def edgeOf {Ctx : Type} (quote MakeURI : String → String)
    (Resolvers : GoMap String (Resolver Ctx)) (c : Repository) (x : Ctx)
    (rawDep : RawDependency) : Option ResolvedDep :=
  (Resolve quote Resolvers rawDep c x).1.map (mkResolvedDep MakeURI c rawDep)

/-! ## Package `build` -/

/-- A value of interface type `makex.Rule`, given by the results of its methods; the
struct `makex.BasicRule` has exactly these fields. -/
structure Rule where
  /-- Result of `Target()`. -/
  TargetFile : String
  /-- Result of `Prereqs()`. -/
  PrereqFiles : List String
  /-- Result of `Recipes()`. -/
  RecipeCmds : List String
  deriving DecidableEq, Repr

/-- The struct `makex.Makefile`. -/
structure Makefile where
  /-- Field `Rules`. -/
  Rules : List Rule
  deriving DecidableEq, Repr

/-- A non-nil function of type `RuleMaker`: the returned rules and the returned error. -/
abbrev RuleMaker := Repository → String → List Rule → List Rule × Option String

/-- The package-level variables `RuleMakers`, `ruleMakerNames` and `orderedRuleMakers`. -/
structure BuildState where
  /-- The map `RuleMakers`. -/
  RuleMakers : GoMap String RuleMaker
  /-- The slice `ruleMakerNames`. -/
  ruleMakerNames : List String
  /-- The slice `orderedRuleMakers`. -/
  orderedRuleMakers : List RuleMaker

/-- The variables as initialised. -/
def BuildState.empty : BuildState := ⟨[], [], []⟩

/-- The function `RegisterRuleMaker(name, r)`: the state it leaves behind and the panic
message, if any. -/
def RegisterRuleMaker (s : BuildState) (name : String) (r : Option RuleMaker) :
    BuildState × Option String :=
  if GoMap.has s.RuleMakers name then
    (s, some ("build: Register called twice for target lister " ++ name))
  else
    match r with
    | none => (s, some "build: Register target is nil")
    | some f =>
      (⟨GoMap.set s.RuleMakers name f, s.ruleMakerNames ++ [name],
        s.orderedRuleMakers ++ [f]⟩, none)

/-- A call `RegisterRuleMaker(name, r)`. -/
abbrev RuleMakerCall := String × Option RuleMaker

/-- The state after a sequence of `RegisterRuleMaker` calls, made in order. -/
def registerRuleMakers (s : BuildState) : List RuleMakerCall → BuildState
  | [] => s
  | call :: calls => registerRuleMakers (RegisterRuleMaker s call.1 call.2).1 calls

/-- How the first loop of `CreateMakefile` ends. -/
inductive LoopEnd where
  /-- The index expression `ruleMakerNames[i]` is out of range. -/
  | indexPanic
  /-- A maker returned an error; the wrapped error is returned. -/
  | failed (err : String)
  /-- The loop ran to its end with this value of `allRules`. -/
  | done (allRules : List Rule)
  deriving DecidableEq, Repr

/-- The first loop of `CreateMakefile`, entered at index `i` with the remaining makers and
the current value of `allRules`. -/
def makerLoop (c : Repository) (buildDataDir : String) (names : List String) :
    List RuleMaker → Nat → List Rule → LoopEnd
  | [], _, allRules => LoopEnd.done allRules
  | r :: rest, i, allRules =>
    match names[i]? with
    | none => LoopEnd.indexPanic
    | some name =>
      match r c buildDataDir allRules with
      | (_, some err) => LoopEnd.failed ("rule maker " ++ name ++ ": " ++ err)
      | (rules, none) => makerLoop c buildDataDir names rest (i + 1) (allRules ++ rules)

/-- How a call of `CreateMakefile` ends. -/
inductive CreateResult where
  /-- A run-time panic. -/
  | panicked
  /-- The call returns this pair; `none` is a nil pointer, respectively a nil error. -/
  | returned (mf : Option Makefile) (err : Option String)
  deriving DecidableEq, Repr

/-- The rule `all` built from the accumulated rules. -/
def allRuleOf (allRules : List Rule) : Rule :=
  ⟨"all", allRules.map Rule.TargetFile, []⟩

/-- The rule `&makex.BasicRule{TargetFile: ".DELETE_ON_ERROR"}`. -/
def deleteOnErrorRule : Rule := ⟨".DELETE_ON_ERROR", [], []⟩

/-- The function `CreateMakefile(buildDataDir, c)`. -/
def CreateMakefile (s : BuildState) (buildDataDir : String) (c : Repository) : CreateResult :=
  match makerLoop c buildDataDir s.ruleMakerNames s.orderedRuleMakers 0 [] with
  | LoopEnd.indexPanic => CreateResult.panicked
  | LoopEnd.failed err => CreateResult.returned none (some err)
  | LoopEnd.done allRules =>
    CreateResult.returned
      (some ⟨[allRuleOf allRules] ++ allRules ++ [deleteOnErrorRule]⟩) none

/-- The makers of the calls that do not panic, in call order; `seen` holds the names
registered before. -/
def acceptedMakers : List RuleMakerCall → List String → List RuleMaker
  | [], _ => []
  | (_, none) :: calls, seen => acceptedMakers calls seen
  | (name, some r) :: calls, seen =>
    if name ∈ seen then acceptedMakers calls seen
    else r :: acceptedMakers calls (name :: seen)

/-- What each maker of a list returns when it is handed, as `existing`, the rules returned
by the makers before it. -/
def makerReturns (c : Repository) (buildDataDir : String) :
    List RuleMaker → List Rule → List (List Rule × Option String)
  | [], _ => []
  | r :: rest, existing =>
    r c buildDataDir existing ::
      makerReturns c buildDataDir rest (existing ++ (r c buildDataDir existing).1)

/-- All rules returned by the makers of a list, in maker order. -/
def producedRules (c : Repository) (buildDataDir : String) (makers : List RuleMaker) :
    List Rule :=
  ((makerReturns c buildDataDir makers []).map Prod.fst).flatten

/-- The calls that do not panic, as name and maker, in call order; `seen` holds the names
registered before. -/
def acceptedCalls : List RuleMakerCall → List String → List (String × RuleMaker)
  | [], _ => []
  | (_, none) :: calls, seen => acceptedCalls calls seen
  | (name, some r) :: calls, seen =>
    if name ∈ seen then acceptedCalls calls seen
    else (name, r) :: acceptedCalls calls (name :: seen)

/-- Following the spec's words: the rule list that the maker at position `j` of a list
receives as `existing`, namely the concatenation, in order, of the rule lists
returned by the makers at positions `0` to `j-1`, each of which received the list
so described for its own position; the empty list at position `0`. -/
def existingFor (c : Repository) (buildDataDir : String) (makers : List RuleMaker) :
    Nat → List Rule
  | 0 => []
  | j + 1 =>
    existingFor c buildDataDir makers j ++
      match makers[j]? with
      | some r => (r c buildDataDir (existingFor c buildDataDir makers j)).1
      | none => []

/-- Following the spec's words: what the maker at position `j` of a list returns on the
rule list it receives; `none` when the list has no position `j`. -/
def returnedAt (c : Repository) (buildDataDir : String) (makers : List RuleMaker) (j : Nat) :
    Option (List Rule × Option String) :=
  makers[j]?.map (fun r => r c buildDataDir (existingFor c buildDataDir makers j))

/-- The keys of a map. -/
def GoMap.keys {K V : Type} [DecidableEq K] (m : GoMap K V) : List K :=
  (m.map Prod.fst).dedup

/-- The built-in `len(m)`: the number of keys. -/
def GoMap.len {K V : Type} [DecidableEq K] (m : GoMap K V) : Nat :=
  (GoMap.keys m).length

/-- What holds of the three variables of package `build` after any sequence of
registrations. -/
def BuildInv (s : BuildState) : Prop :=
  s.ruleMakerNames.length = s.orderedRuleMakers.length ∧
  s.ruleMakerNames.Nodup ∧
  (s.RuleMakers.map Prod.fst).Nodup ∧
  s.RuleMakers.length = s.ruleMakerNames.length ∧
  (∀ n, GoMap.has s.RuleMakers n = true ↔ n ∈ s.ruleMakerNames) ∧
  (∀ (i : Nat) (n : String) (r : RuleMaker),
    s.ruleMakerNames[i]? = some n → s.orderedRuleMakers[i]? = some r →
    GoMap.get s.RuleMakers n = some r)

/-- The map `Resolvers` after a sequence of `RegisterResolver` calls, made in order. -/
def registerResolvers {Ctx : Type} (Resolvers : GoMap String (Resolver Ctx)) :
    List (String × Option (Resolver Ctx)) → GoMap String (Resolver Ctx)
  | [] => Resolvers
  | call :: calls => registerResolvers (RegisterResolver Resolvers call.1 call.2).1 calls

/-! ## Package `grapher2` -/

/-- Modelled from the spec: the struct `graph.Symbol` with its embedded `graph.SymbolKey`,
declared in package `graph`, which is not at hand; the fields are the ones the
spec lists and the Go toolchain sets. -/
structure Symbol where
  /-- Field `Repo` of the key. -/
  Repo : String
  /-- Field `Unit` of the key. -/
  Unit : String
  /-- Field `UnitType` of the key. -/
  UnitType : String
  /-- Field `Path` of the key, of type `graph.SymbolPath`. -/
  Path : String
  /-- Field `Name`. -/
  Name : String
  /-- Field `Kind`. -/
  Kind : String
  /-- Field `TypeExpr`. -/
  TypeExpr : String
  /-- Field `File`. -/
  File : String
  /-- Field `DefStart`. -/
  DefStart : Nat
  /-- Field `DefEnd`. -/
  DefEnd : Nat
  /-- Field `Exported`. -/
  Exported : Bool
  /-- Field `Callable`. -/
  Callable : Bool
  deriving DecidableEq, Repr

/-- The key `(Repo, Unit, UnitType, Path)` of a symbol. -/
def Symbol.key (s : Symbol) : String × String × String × String :=
  (s.Repo, s.Unit, s.UnitType, s.Path)

/-- Modelled from the spec: the struct `graph.Ref`, declared in package `graph`, which is
not at hand. -/
structure Ref where
  /-- Field `SymbolRepo`. -/
  SymbolRepo : String
  /-- Field `SymbolUnit`. -/
  SymbolUnit : String
  /-- Field `SymbolUnitType`. -/
  SymbolUnitType : String
  /-- Field `SymbolPath`. -/
  SymbolPath : String
  /-- Field `Def`. -/
  Def : Bool
  /-- Field `File`. -/
  File : String
  /-- Field `Start`. -/
  Start : Nat
  /-- Field `End`. -/
  End : Nat
  deriving DecidableEq, Repr

/-- Modelled from the spec: the struct `graph.Doc`, declared in package `graph`, which is
not at hand. -/
structure Doc where
  /-- Field `Repo` of the key. -/
  Repo : String
  /-- Field `Unit` of the key. -/
  Unit : String
  /-- Field `UnitType` of the key. -/
  UnitType : String
  /-- Field `Path` of the key. -/
  Path : String
  /-- Field `Format`. -/
  Format : String
  /-- Field `Data`. -/
  Data : String
  /-- Field `File`. -/
  File : String
  /-- Field `Start`. -/
  Start : Nat
  /-- Field `End`. -/
  End : Nat
  deriving DecidableEq, Repr

/-- The struct `Output`. -/
structure Output where
  /-- Field `Symbols`. -/
  Symbols : List Symbol
  /-- Field `Refs`. -/
  Refs : List Ref
  /-- Field `Docs`. -/
  Docs : List Doc
  deriving DecidableEq, Repr

/-- The error built by `fmt.Errorf` in `DockerGrapher.Graph`.  The parameter `quote` renders
the path under the verb `%q`, the parameter `showSymbol` a symbol under `%+v`. -/
def duplicatePathError (quote : String → String) (showSymbol : Symbol → String)
    (path : String) (s0 s : Symbol) : String :=
  "duplicate path in symbols output: " ++ quote path ++ "\nsymbol 1: " ++ showSymbol s0
    ++ "\nsymbol 2: " ++ showSymbol s

/-- The uniqueness loop of `DockerGrapher.Graph`, entered with the remaining symbols and
the current map `seenSymbolPaths`: the error it returns with, `none` when it runs
to its end. -/
def checkSymbols (quote : String → String) (showSymbol : Symbol → String) :
    List Symbol → GoMap String Symbol → Option String
  | [], _ => none
  | s :: rest, seenSymbolPaths =>
    match GoMap.get seenSymbolPaths s.Path with
    | some s0 => some (duplicatePathError quote showSymbol s.Path s0 s)
    | none => checkSymbols quote showSymbol rest (GoMap.set seenSymbolPaths s.Path s)

/-- What the three calls at the head of `DockerGrapher.Graph` come back with. -/
structure GraphRun where
  /-- The error of `g.BuildGrapher(dir, unit, c, x)`. -/
  buildErr : Option String
  /-- The error of `cmd.Run()`. -/
  runErr : Option String
  /-- The outcome of `json.Unmarshal(data, &output)`: its error or the output. -/
  unmarshal : Except String Output

/-- The method `DockerGrapher.Graph`: the returned pointer and the returned error. -/
def DockerGrapher.Graph (quote : String → String) (showSymbol : Symbol → String)
    (run : GraphRun) : Option Output × Option String :=
  match run.buildErr with
  | some err => (none, some err)
  | none =>
    match run.runErr with
    | some err => (none, some err)
    | none =>
      match run.unmarshal with
      | Except.error err => (none, some err)
      | Except.ok output =>
        match checkSymbols quote showSymbol output.Symbols [] with
        | some err => (none, some err)
        | none => (some output, none)

/-- A run in which building, running and decoding succeed with the given output. -/
def decodedRun (output : Output) : GraphRun := ⟨none, none, Except.ok output⟩

/-! ## Package `python` -/

/-- The constant `pythonRequirementTargetType`. -/
def pythonRequirementTargetType : String := "python-requirement"

/-- The struct `requirement`. -/
structure requirement where
  /-- Field `ProjectName`. -/
  ProjectName : String
  /-- Field `UnsafeName`. -/
  UnsafeName : String
  /-- Field `Key`. -/
  Key : String
  /-- Field `Specs`. -/
  Specs : List (String × String)
  /-- Field `Extras`. -/
  Extras : List String
  /-- Field `RepoURL`. -/
  RepoURL : String
  /-- Field `Packages`. -/
  Packages : List String
  /-- Field `Modules`. -/
  Modules : List String
  deriving DecidableEq, Repr

/-- The declaration `var req requirement`: every field empty. -/
def requirement.zero : requirement := ⟨"", "", "", [], [], "", [], []⟩

/-- The method `pythonEnv.Resolve`.  The parameter `req` is the value of the variable `req`
after the calls `json.Marshal(dep.Target)` and `json.Unmarshal(reqJson, &req)`,
whose errors the method drops; the parameter `fauxPackage` is the value
`&FauxPackage{}`, and `s` holds the maps of package `unit`. -/
def pythonEnv.Resolve {Ctx : Type} (req : requirement) (fauxPackage : SourceUnit)
    (s : Registry) (dep : RawDependency) (_c : Repository) (_x : Ctx) :
    Option ResolvedTarget × Option String :=
  if dep.TargetType = pythonRequirementTargetType then
    (some ⟨req.RepoURL, fauxPackage.Name, «Type» s fauxPackage, "", ""⟩, none)
  else
    (none, some ("Unexpected target type for Python: " ++ dep.TargetType))

/-! ## Concrete inputs -/

/-- The registrations made by the JavaScript and Go toolchains. -/
def toolchainCalls : List RegisterCall :=
  [("CommonJSPackage", some ⟨"*javascript.CommonJSPackage", "", "", []⟩),
   ("GoPackage", some ⟨"*golang.Package", "", "", []⟩)]

/-- The registry after the toolchain registrations. -/
def toolchainRegistry : Registry := registerSeq Registry.empty toolchainCalls

/-- A CommonJS package whose directory name holds the separator. -/
def versionedPackage : SourceUnit :=
  ⟨"*javascript.CommonJSPackage", "vendor/lib@2", "vendor/lib@2", ["vendor/lib@2/index.js"]⟩

/-- Two registrations, the second under a type name that holds the separator. -/
def clashCalls : List RegisterCall :=
  [("c", some ⟨"*pkg.First", "", "", []⟩), ("b@c", some ⟨"*pkg.Second", "", "", []⟩)]

/-- The registry after `clashCalls`. -/
def clashRegistry : Registry := registerSeq Registry.empty clashCalls

/-- A unit of the first type of `clashCalls`. -/
def clashUnit1 : SourceUnit := ⟨"*pkg.First", "a@b", "a@b", []⟩

/-- A unit of the second type of `clashCalls`. -/
def clashUnit2 : SourceUnit := ⟨"*pkg.Second", "a", "a", []⟩

/-- A rendering of `%q` on plain text: the text between double quotes. -/
def plainQuote (s : String) : String := "\"" ++ s ++ "\""

/-- A stand-in for `repo.MakeURI` that drops the scheme `git://`. -/
def dropScheme (cloneURL : String) : String :=
  if "git://".data.isPrefixOf cloneURL.data then sliceFrom cloneURL 6 else cloneURL

/-- A resolver that has no target for the payload `skip`, fails on the payload `bad`, and
resolves every other payload to a repository named after it. -/
def sampleResolver : Resolver Unit := fun dep _ _ =>
  if dep.Target = "skip" then (none, none)
  else if dep.Target = "bad" then (none, some "cannot resolve bad")
  else (some ⟨"git://host/" ++ dep.Target, dep.Target, "GoPackage", "", ""⟩, none)

/-- The map `Resolvers` with `sampleResolver` registered for `sample`. -/
def sampleResolvers : GoMap String (Resolver Unit) :=
  (RegisterResolver [] "sample" (some sampleResolver)).1

/-- A raw dependency of target type `sample` with the given payload. -/
def sampleDep (target : String) : RawDependency := ⟨"u", "GoPackage", "f.go", "sample", target⟩

/-- A repository. -/
def sampleRepo : Repository := ⟨"host/me"⟩

/-- A maker with the single rule `t1`. -/
def makerM1 : RuleMaker := fun _ _ _ => ([⟨"t1", [], []⟩], none)

/-- A maker with the rules `t2`, which depends on every earlier target, and `t3`. -/
def makerM2 : RuleMaker := fun _ _ existing =>
  ([⟨"t2", existing.map Rule.TargetFile, []⟩, ⟨"t3", [], []⟩], none)

/-- The registrations of `makerM1` and `makerM2`, with a repeated name and a nil maker in
between. -/
def sampleMakerCalls : List RuleMakerCall :=
  [("m1", some makerM1), ("m1", some makerM2), ("m0", none), ("m2", some makerM2)]

/-- A maker that fails. -/
def makerBad : RuleMaker := fun _ _ _ => ([⟨"partial", [], []⟩], some "boom")

/-- The registrations of `makerM1`, `makerBad` and `makerM2`, in this order. -/
def failingMakerCalls : List RuleMakerCall :=
  [("m1", some makerM1), ("bad", some makerBad), ("m2", some makerM2)]

/-- A stand-in for the rendering of a symbol under `%+v`: its file and its name. -/
def fileAndName (s : Symbol) : String := s.File ++ ":" ++ s.Name

/-- The function `F` of unit `pkg`, defined in `a.go`. -/
def symbolF : Symbol :=
  ⟨"host/me", "pkg", "GoPackage", "F", "F", "func", "", "a.go", 0, 10, true, true⟩

/-- A second symbol with the key of `symbolF`, defined in `b.go`. -/
def symbolF2 : Symbol :=
  ⟨"host/me", "pkg", "GoPackage", "F", "F", "func", "", "b.go", 5, 9, true, true⟩

/-- A third symbol with the key of `symbolF`, defined in `c.go`. -/
def symbolF3 : Symbol :=
  ⟨"host/me", "pkg", "GoPackage", "F", "F", "var", "", "c.go", 1, 2, true, false⟩

/-- The variable `G` of unit `pkg`. -/
def symbolG : Symbol :=
  ⟨"host/me", "pkg", "GoPackage", "G", "G", "var", "", "a.go", 12, 20, true, false⟩

/-- A symbol with the path of `symbolF` in the other unit `pkg/sub`. -/
def symbolSubF : Symbol :=
  ⟨"host/me", "pkg/sub", "GoPackage", "F", "F", "func", "", "sub/a.go", 0, 10, true, true⟩

/-- A stand-in for the value `&FauxPackage{}`, whose type is declared in a file that is not
at hand. -/
def fauxPackage : SourceUnit := ⟨"*python.FauxPackage", "python", ".", []⟩

/-- The registry after the toolchain registrations and one of the type of `fauxPackage`. -/
def pythonRegistry : Registry :=
  registerSeq toolchainRegistry [("PythonPackage", some fauxPackage)]

/-- The requirement of a project hosted at `git://host/lib`. -/
def libRequirement : requirement :=
  ⟨"lib", "lib", "lib", [("==", "1.0")], [], "git://host/lib", ["lib"], []⟩

/-- A Python requirement whose payload names the project `lib`. -/
def libDependency : RawDependency :=
  ⟨"python", "PythonPackage", "requirements.txt", "python-requirement", "lib==1.0"⟩

/-- A Python requirement whose payload is the empty object. -/
def bareRequirement : RawDependency :=
  ⟨"python", "PythonPackage", "requirements.txt", "python-requirement", "\x7b\x7d"⟩

/-- A registration of `sampleResolver` under `sample`, a repeated one, a nil one, and one
of a second resolver under `other`. -/
def sampleResolverCalls : List (String × Option (Resolver Unit)) :=
  [("sample", some sampleResolver), ("sample", some (fun _ _ _ => (none, none))),
   ("nil", none), ("other", some (fun _ _ _ => (none, some "no")))]

/-! ## Facts about maps -/

namespace GoMap

variable {K V : Type} [DecidableEq K]

theorem get_filter_ne (m : GoMap K V) (k k' : K) (h : k' ≠ k) :
    get (m.filter (fun p => decide (p.1 ≠ k))) k' = get m k' := by
  induction m with
  | nil => rfl
  | cons p rest ih =>
    obtain ⟨a, b⟩ := p
    by_cases hak : a = k
    · have hne : ¬ a = k' := fun h' => h (h'.symm.trans hak)
      rw [List.filter_cons_of_neg (by simp [hak]), ih]
      simp [get, hne]
    · rw [List.filter_cons_of_pos (by simp [hak])]
      by_cases hak' : a = k'
      · simp [get, hak']
      · simp only [get, hak', if_false]
        exact ih

theorem get_set_self (m : GoMap K V) (k : K) (v : V) : get (set m k v) k = some v := by
  simp [set, get]

theorem get_set_ne (m : GoMap K V) (k k' : K) (v : V) (h : k' ≠ k) :
    get (set m k v) k' = get m k' := by
  have hne : ¬ k = k' := fun h' => h h'.symm
  simp only [set, get, hne, if_false]
  exact get_filter_ne m k k' h

theorem has_eq_false_iff (m : GoMap K V) (k : K) : has m k = false ↔ get m k = none := by
  simp [has]

end GoMap

/-! ## Facts about `strings.Index` with the separator -/

theorem indexFrom_sep_eq_neg_one (l : List Char) (i : Nat) :
    indexFrom ['@'] l i = -1 ↔ '@' ∉ l := by
  induction l generalizing i with
  | nil => simp [indexFrom]
  | cons c cs ih =>
    by_cases hc : '@' = c
    · subst hc
      simp only [indexFrom, List.isPrefixOf, beq_self_eq_true, Bool.and_self, if_true,
        List.mem_cons, true_or, not_true_eq_false, iff_false]
      omega
    · have hb : ('@' == c) = false := by simpa using hc
      simp only [indexFrom, List.isPrefixOf, hb, Bool.false_and, Bool.false_eq_true, if_false,
        List.mem_cons, hc, false_or]
      exact ih (i + 1)

theorem indexFrom_sep_append (pre post : List Char) (i : Nat) (h : '@' ∉ pre) :
    indexFrom ['@'] (pre ++ '@' :: post) i = ((i + pre.length : Nat) : Int) := by
  induction pre generalizing i with
  | nil => simp [indexFrom, List.isPrefixOf]
  | cons c cs ih =>
    have hc : ¬ '@' = c := fun h' => h (h' ▸ List.mem_cons_self _ _)
    have hcs : '@' ∉ cs := fun h' => h (List.mem_cons_of_mem _ h')
    have hb : ('@' == c) = false := by simpa using hc
    have hstep : indexFrom ['@'] (c :: (cs ++ '@' :: post)) i
        = indexFrom ['@'] (cs ++ '@' :: post) (i + 1) := by
      simp only [indexFrom, List.isPrefixOf, hb, Bool.false_and, Bool.false_eq_true, if_false]
    rw [List.cons_append, hstep, ih (i + 1) hcs, List.length_cons]
    congr 1
    omega

/-- When the name holds no separator, `ParseID` splits `name@typ` back into its parts. -/
theorem ParseID_concat (n t : String) (h : '@' ∉ n.data) :
    ParseID (n ++ idSeparator ++ t) = ⟨n, t, none⟩ := by
  have hdata : (n ++ idSeparator ++ t).data = n.data ++ '@' :: t.data := by
    simp only [String.data_append, idSeparator, List.append_assoc]
    rfl
  have hidx : stringsIndex (n ++ idSeparator ++ t) idSeparator = (n.data.length : Int) := by
    have h0 := indexFrom_sep_append n.data t.data 0 h
    rw [Nat.zero_add] at h0
    unfold stringsIndex
    rw [hdata]
    exact h0
  have hne : ¬ ((n.data.length : Int) = -1) := by omega
  have h1 : sliceTo (n ++ idSeparator ++ t) n.data.length = n := by
    unfold sliceTo
    rw [hdata, List.take_left']
    rfl
  have h2 : sliceFrom (n ++ idSeparator ++ t) (n.data.length + idSeparator.length) = t := by
    have hlen : idSeparator.length = 1 := rfl
    unfold sliceFrom
    rw [hdata, hlen, ← List.drop_drop, List.drop_left']
    · rfl
    · rfl
  unfold ParseID
  simp only [hidx, hne, if_false, Int.toNat_ofNat, h1, h2]

/-! ## Facts about `Register` -/

/-- A call that returns normally had a fresh name, a non-nil instance of a fresh
type and a non-empty name, and wrote both maps. -/
theorem Register_ok (s : Registry) (name : String) (emptyInstance : Option SourceUnit)
    (h : (Register s name emptyInstance).2 = none) :
    ∃ e, emptyInstance = some e ∧ GoMap.has s.Types name = false ∧
      GoMap.has s.TypeNames e.goType = false ∧ name ≠ "" ∧
      (Register s name emptyInstance).1
        = ⟨GoMap.set s.Types name e, GoMap.set s.TypeNames e.goType name⟩ := by
  unfold Register at h ⊢
  by_cases h1 : GoMap.has s.Types name = true
  · simp [h1] at h
  · cases emptyInstance with
    | none => simp [h1] at h
    | some e =>
      by_cases h2 : GoMap.has s.TypeNames e.goType = true
      · simp [h1, h2] at h
      · by_cases h3 : name = ""
        · subst h3
          simp [h1, h2] at h
        · refine ⟨e, rfl, by simpa using h1, by simpa using h2, h3, ?_⟩
          simp [h1, h2, h3]

/-- A call under a name that is a key of `Types` panics. -/
theorem Register_dup_name (s : Registry) (name : String) (emptyInstance : Option SourceUnit)
    (h : GoMap.has s.Types name = true) : (Register s name emptyInstance).2 ≠ none := by
  simp [Register, h]

/-- A call with an instance whose type is a key of `TypeNames` panics. -/
theorem Register_dup_type (s : Registry) (name : String) (e : SourceUnit)
    (h : GoMap.has s.TypeNames e.goType = true) : (Register s name (some e)).2 ≠ none := by
  by_cases hdup : GoMap.has s.Types name = true
  · simp [Register, hdup]
  · simp [Register, hdup, h]

theorem MutuallyInverse_empty : MutuallyInverse Registry.empty := by
  constructor
  · intro n e h
    simp [Registry.empty, GoMap.get] at h
  · intro t n h
    simp [Registry.empty, GoMap.get] at h

theorem MutuallyInverse_Register (s : Registry) (name : String)
    (emptyInstance : Option SourceUnit) (hs : MutuallyInverse s)
    (h : (Register s name emptyInstance).2 = none) :
    MutuallyInverse (Register s name emptyInstance).1 := by
  obtain ⟨e, _, hname, htyp, _, hst⟩ := Register_ok s name emptyInstance h
  rw [hst]
  have hname' : GoMap.get s.Types name = none := (GoMap.has_eq_false_iff _ _).1 hname
  have htyp' : GoMap.get s.TypeNames e.goType = none := (GoMap.has_eq_false_iff _ _).1 htyp
  constructor
  · intro n e' hget
    by_cases hn : n = name
    · subst hn
      rw [GoMap.get_set_self] at hget
      cases hget
      exact GoMap.get_set_self _ _ _
    · rw [GoMap.get_set_ne _ _ _ _ hn] at hget
      have hold := hs.1 n e' hget
      have hne : e'.goType ≠ e.goType := by
        intro heq
        rw [heq, htyp'] at hold
        cases hold
      show GoMap.get (GoMap.set s.TypeNames e.goType name) e'.goType = some n
      rw [GoMap.get_set_ne _ _ _ _ hne]
      exact hold
  · intro t n hget
    by_cases ht : t = e.goType
    · subst ht
      rw [GoMap.get_set_self] at hget
      cases hget
      exact ⟨e, GoMap.get_set_self _ _ _, rfl⟩
    · rw [GoMap.get_set_ne _ _ _ _ ht] at hget
      obtain ⟨e', he', hty⟩ := hs.2 t n hget
      have hne : n ≠ name := by
        intro heq
        rw [heq, hname'] at he'
        cases he'
      refine ⟨e', ?_, hty⟩
      show GoMap.get (GoMap.set s.Types name e) n = some e'
      rw [GoMap.get_set_ne _ _ _ _ hne]
      exact he'

theorem MutuallyInverse_registerSeq (s : Registry) (calls : List RegisterCall)
    (hs : MutuallyInverse s) (h : noPanic s calls) :
    MutuallyInverse (registerSeq s calls) := by
  induction calls generalizing s with
  | nil => exact hs
  | cons c cs ih =>
    exact ih _ (MutuallyInverse_Register s c.1 c.2 hs h.1) h.2

/-! ## Facts about `ResolveAll` -/

section ResolveAllFacts

variable {Ctx : Type} (quote MakeURI : String → String)
  (Resolvers : GoMap String (Resolver Ctx)) (c : Repository) (x : Ctx)

/-- Without a resolver error the loop appends the edges of the remaining dependencies. -/
theorem resolveLoop_ok (rawDeps : List RawDependency) (resolved : List ResolvedDep)
    (hok : ∀ d ∈ rawDeps, (Resolve quote Resolvers d c x).2 = none) :
    resolveLoop quote MakeURI Resolvers c x rawDeps resolved
      = (resolved ++ rawDeps.filterMap (edgeOf quote MakeURI Resolvers c x), none) := by
  induction rawDeps generalizing resolved with
  | nil => simp [resolveLoop]
  | cons d rest ih =>
    have hd : (Resolve quote Resolvers d c x).2 = none := hok d (List.mem_cons_self _ _)
    have hrest : ∀ d' ∈ rest, (Resolve quote Resolvers d' c x).2 = none :=
      fun d' hd' => hok d' (List.mem_cons_of_mem _ hd')
    rcases hres : Resolve quote Resolvers d c x with ⟨rt, err⟩
    rw [hres] at hd
    cases hd
    cases rt with
    | none =>
      have hedge : edgeOf quote MakeURI Resolvers c x d = none := by
        simp [edgeOf, hres]
      rw [List.filterMap_cons_none hedge]
      simp only [resolveLoop, hres]
      exact ih resolved hrest
    | some t =>
      have hedge : edgeOf quote MakeURI Resolvers c x d
          = some (mkResolvedDep MakeURI c d t) := by
        simp [edgeOf, hres]
      rw [List.filterMap_cons_some hedge]
      simp only [resolveLoop, hres]
      rw [ih _ hrest, List.append_assoc]
      rfl

/-- The loop stops at the first resolver error and drops what it had collected. -/
theorem resolveLoop_error (pre post : List RawDependency) (d : RawDependency)
    (resolved : List ResolvedDep) (e : String)
    (hpre : ∀ d' ∈ pre, (Resolve quote Resolvers d' c x).2 = none)
    (hd : (Resolve quote Resolvers d c x).2 = some e) :
    resolveLoop quote MakeURI Resolvers c x (pre ++ d :: post) resolved = ([], some e) := by
  induction pre generalizing resolved with
  | nil =>
    rcases hres : Resolve quote Resolvers d c x with ⟨rt, err⟩
    rw [hres] at hd
    cases hd
    simp only [List.nil_append, resolveLoop, hres]
  | cons p rest ih =>
    have hp : (Resolve quote Resolvers p c x).2 = none := hpre p (List.mem_cons_self _ _)
    have hrest : ∀ d' ∈ rest, (Resolve quote Resolvers d' c x).2 = none :=
      fun d' hd' => hpre d' (List.mem_cons_of_mem _ hd')
    rcases hres : Resolve quote Resolvers p c x with ⟨rt, err⟩
    rw [hres] at hp
    cases hp
    cases rt with
    | none =>
      simp only [List.cons_append, resolveLoop, hres]
      exact ih resolved hrest
    | some t =>
      simp only [List.cons_append, resolveLoop, hres]
      exact ih _ hrest

/-- A list with a failing dependency splits at the first one. -/
theorem exists_first_error (rawDeps : List RawDependency)
    (h : ∃ d ∈ rawDeps, (Resolve quote Resolvers d c x).2 ≠ none) :
    ∃ pre d post e, rawDeps = pre ++ d :: post ∧
      (∀ d' ∈ pre, (Resolve quote Resolvers d' c x).2 = none) ∧
      (Resolve quote Resolvers d c x).2 = some e := by
  induction rawDeps with
  | nil =>
    obtain ⟨d, hd, _⟩ := h
    cases hd
  | cons a rest ih =>
    cases ha : (Resolve quote Resolvers a c x).2 with
    | some e => exact ⟨[], a, rest, e, rfl, by simp, ha⟩
    | none =>
      obtain ⟨d, hd, hne⟩ := h
      have hd' : d ∈ rest := by
        rcases List.mem_cons.1 hd with heq | hmem
        · subst heq
          exact absurd ha hne
        · exact hmem
      obtain ⟨pre, d0, post, e, hsplit, hpre, he⟩ := ih ⟨d, hd', hne⟩
      refine ⟨a :: pre, d0, post, e, by rw [hsplit]; rfl, ?_, he⟩
      intro d' hmem
      rcases List.mem_cons.1 hmem with heq | hmem'
      · subst heq
        exact ha
      · exact hpre d' hmem'

/-- The dependencies with an edge and those with a nil resolution make up the list. -/
theorem filterMap_edgeOf_length (rawDeps : List RawDependency) :
    (rawDeps.filterMap (edgeOf quote MakeURI Resolvers c x)).length
      + rawDeps.countP (fun d => (Resolve quote Resolvers d c x).1.isNone)
      = rawDeps.length := by
  induction rawDeps with
  | nil => rfl
  | cons d rest ih =>
    cases hres : (Resolve quote Resolvers d c x).1 with
    | none =>
      have hedge : edgeOf quote MakeURI Resolvers c x d = none := by simp [edgeOf, hres]
      rw [List.filterMap_cons_none hedge, List.countP_cons, List.length_cons]
      simp only [hres, Option.isNone_none, if_true]
      omega
    | some t =>
      have hedge : edgeOf quote MakeURI Resolvers c x d
          = some (mkResolvedDep MakeURI c d t) := by simp [edgeOf, hres]
      rw [List.filterMap_cons_some hedge, List.countP_cons, List.length_cons,
        List.length_cons]
      simp only [hres, Option.isNone_some, Bool.false_eq_true, if_false]
      omega

end ResolveAllFacts

/-! ## Facts about `RegisterRuleMaker` and `CreateMakefile` -/

theorem GoMap.has_set {K V : Type} [DecidableEq K] (m : GoMap K V) (k n : K) (v : V) :
    GoMap.has (GoMap.set m k v) n = true ↔ n = k ∨ GoMap.has m n = true := by
  by_cases h : n = k
  · subst h
    simp [GoMap.has, GoMap.get_set_self]
  · simp [GoMap.has, GoMap.get_set_ne m k n v h, h]

/-- The slices after a sequence of calls: the makers of the accepted calls are appended in
call order, and one name is appended with each. -/
theorem registerRuleMakers_slices (calls : List RuleMakerCall) (s : BuildState)
    (seen : List String) (hseen : ∀ n, n ∈ seen ↔ GoMap.has s.RuleMakers n = true) :
    (registerRuleMakers s calls).orderedRuleMakers
        = s.orderedRuleMakers ++ acceptedMakers calls seen ∧
      (registerRuleMakers s calls).ruleMakerNames.length
        = s.ruleMakerNames.length + (acceptedMakers calls seen).length := by
  induction calls generalizing s seen with
  | nil => simp [registerRuleMakers, acceptedMakers]
  | cons call calls ih =>
    obtain ⟨name, r⟩ := call
    cases r with
    | none =>
      have hst : (RegisterRuleMaker s name none).1 = s := by
        unfold RegisterRuleMaker
        split <;> rfl
      simp only [registerRuleMakers, acceptedMakers, hst]
      exact ih s seen hseen
    | some f =>
      by_cases hdup : GoMap.has s.RuleMakers name = true
      · have hst : (RegisterRuleMaker s name (some f)).1 = s := by
          simp [RegisterRuleMaker, hdup]
        have hmem : name ∈ seen := (hseen name).2 hdup
        simp only [registerRuleMakers, acceptedMakers, hst, hmem, if_true]
        exact ih s seen hseen
      · have hst : (RegisterRuleMaker s name (some f)).1
            = ⟨GoMap.set s.RuleMakers name f, s.ruleMakerNames ++ [name],
                s.orderedRuleMakers ++ [f]⟩ := by
          simp [RegisterRuleMaker, hdup]
        have hmem : ¬ name ∈ seen := fun h => hdup ((hseen name).1 h)
        have hseen' : ∀ n, n ∈ name :: seen
            ↔ GoMap.has (GoMap.set s.RuleMakers name f) n = true := by
          intro n
          rw [GoMap.has_set, List.mem_cons, hseen n]
        obtain ⟨h1, h2⟩ := ih ⟨GoMap.set s.RuleMakers name f, s.ruleMakerNames ++ [name],
          s.orderedRuleMakers ++ [f]⟩ (name :: seen) hseen'
        simp only [registerRuleMakers, acceptedMakers, hst, hmem, if_false]
        constructor
        · rw [h1]
          simp
        · rw [h2]
          simp
          omega

/-- From the empty registry the makers are those of the accepted calls and there are as
many names as makers. -/
theorem registerRuleMakers_empty (calls : List RuleMakerCall) :
    (registerRuleMakers BuildState.empty calls).orderedRuleMakers = acceptedMakers calls [] ∧
      (registerRuleMakers BuildState.empty calls).ruleMakerNames.length
        = (acceptedMakers calls []).length := by
  have h := registerRuleMakers_slices calls BuildState.empty []
    (by intro n; simp [BuildState.empty, GoMap.has, GoMap.get])
  simpa [BuildState.empty] using h

/-- With enough names and no maker error the loop ends with all returned rules appended. -/
theorem makerLoop_ok (c : Repository) (buildDataDir : String) (names : List String)
    (makers : List RuleMaker) (i : Nat) (allRules : List Rule)
    (hlen : i + makers.length ≤ names.length)
    (hok : ∀ o ∈ makerReturns c buildDataDir makers allRules, o.2 = none) :
    makerLoop c buildDataDir names makers i allRules
      = LoopEnd.done
          (allRules ++ ((makerReturns c buildDataDir makers allRules).map Prod.fst).flatten) := by
  induction makers generalizing i allRules with
  | nil => simp [makerLoop, makerReturns]
  | cons r rest ih =>
    have hi : i < names.length := by
      simp only [List.length_cons] at hlen
      omega
    have hr : (r c buildDataDir allRules).2 = none :=
      hok _ (by simp [makerReturns])
    have hrest : ∀ o ∈ makerReturns c buildDataDir rest
        (allRules ++ (r c buildDataDir allRules).1), o.2 = none :=
      fun o ho => hok o (by simp [makerReturns, ho])
    rcases hres : r c buildDataDir allRules with ⟨rules, err⟩
    rw [hres] at hr hrest
    cases hr
    have hlen' : i + 1 + rest.length ≤ names.length := by
      simp only [List.length_cons] at hlen
      omega
    simp only [makerLoop, List.getElem?_eq_getElem hi, hres, makerReturns, List.map_cons,
      List.flatten_cons]
    rw [ih (i + 1) (allRules ++ rules) hlen' hrest, List.append_assoc]

/-! ## The unit registry: identifiers -/

/-- C1, at a failing input.  For the CommonJS package in directory `vendor/lib@2`, whose
type is registered as `CommonJSPackage`, `MakeID` returns
`vendor/lib@2@CommonJSPackage`, and `ParseID` of that returns no error, the name
`vendor/lib` and the type `2@CommonJSPackage`, which is not the pair
`(u.Name(), Type(u))`. -/
theorem ParseID_MakeID_versionedPackage :
    MakeID toolchainRegistry versionedPackage = "vendor/lib@2@CommonJSPackage" ∧
      ParseID (MakeID toolchainRegistry versionedPackage)
        = ⟨"vendor/lib", "2@CommonJSPackage", none⟩ ∧
      ParseID (MakeID toolchainRegistry versionedPackage)
        ≠ ⟨versionedPackage.Name, «Type» toolchainRegistry versionedPackage, none⟩ := by
  decide

/-- For a unit whose name holds no separator, `ParseID` undoes `MakeID`. -/
theorem ParseID_MakeID_of_plain_name (s : Registry) (u : SourceUnit)
    (h : '@' ∉ u.Name.data) :
    ParseID (MakeID s u) = ⟨u.Name, «Type» s u, none⟩ :=
  ParseID_concat u.Name («Type» s u) h

/-- C2.  `ParseID` returns a non-nil error exactly on the strings without `@`; on those
the returned name and type are both empty; on every string with `@` the error is
nil. -/
theorem ParseID_error_iff (unitID : String) :
    ((ParseID unitID).err ≠ none ↔ '@' ∉ unitID.data) ∧
      ('@' ∉ unitID.data → (ParseID unitID).name = "" ∧ (ParseID unitID).typ = "") ∧
      ('@' ∈ unitID.data → (ParseID unitID).err = none) := by
  have hidx : stringsIndex unitID idSeparator = -1 ↔ '@' ∉ unitID.data :=
    indexFrom_sep_eq_neg_one unitID.data 0
  by_cases hmem : '@' ∈ unitID.data
  · have hne : ¬ stringsIndex unitID idSeparator = -1 := fun h => hidx.1 h hmem
    have herr : (ParseID unitID).err = none := by
      unfold ParseID
      simp only [hne, if_false]
    exact ⟨⟨fun h => absurd herr h, fun h => absurd hmem h⟩, fun h => absurd hmem h,
      fun _ => herr⟩
  · have heq : stringsIndex unitID idSeparator = -1 := hidx.2 hmem
    have hres : ParseID unitID = ⟨"", "", some "no \"@\" in source unit ID"⟩ := by
      unfold ParseID
      simp only [heq, if_true]
    refine ⟨⟨fun _ => hmem, fun _ => ?_⟩, fun _ => ?_, fun h => absurd h hmem⟩
    · rw [hres]
      simp
    · rw [hres]
      exact ⟨rfl, rfl⟩

/-- C2 at the strings `vendor/lib` and `vendor/lib@GoPackage`. -/
theorem ParseID_error_iff_witness :
    ((ParseID "vendor/lib").name = "" ∧ (ParseID "vendor/lib").typ = "") ∧
      (ParseID "vendor/lib@GoPackage").err = none :=
  ⟨(ParseID_error_iff "vendor/lib").2.1 (by decide),
    (ParseID_error_iff "vendor/lib@GoPackage").2.2 (by decide)⟩

/-- C3, at a failing input.  After the non-panicking calls `Register("c", ...)` and
`Register("b@c", ...)` for two types, the unit named `a@b` of the first type and
the unit named `a` of the second have different (name, type name) pairs and the
same ID `a@b@c`. -/
theorem MakeID_clash :
    noPanic Registry.empty clashCalls ∧
      (clashUnit1.Name, «Type» clashRegistry clashUnit1)
        ≠ (clashUnit2.Name, «Type» clashRegistry clashUnit2) ∧
      MakeID clashRegistry clashUnit1 = "a@b@c" ∧
      MakeID clashRegistry clashUnit2 = "a@b@c" := by
  refine ⟨⟨by decide, by decide, trivial⟩, by decide, by decide, by decide⟩

/-! ## The unit registry: registration -/

/-- C4.  In every registry state, `Register(name, emptyInstance)` panics exactly when
`name` is empty, or `emptyInstance` is nil, or `name` is a key of `Types`, or the
concrete type of `emptyInstance` is a key of `TypeNames`.  After a call that did
not panic, a second call under the same name panics, and so does a second call
with an instance of the same concrete type under any name. -/
theorem Register_panics_iff (s : Registry) (name : String)
    (emptyInstance : Option SourceUnit) :
    ((Register s name emptyInstance).2 ≠ none ↔
        (name = "" ∨ emptyInstance = none ∨ GoMap.has s.Types name = true ∨
          ∃ e, emptyInstance = some e ∧ GoMap.has s.TypeNames e.goType = true)) ∧
      ((Register s name emptyInstance).2 = none →
        ∀ second, (Register (Register s name emptyInstance).1 name second).2 ≠ none) ∧
      ((Register s name emptyInstance).2 = none →
        ∀ e, emptyInstance = some e → ∀ name2 e2, e2.goType = e.goType →
          (Register (Register s name emptyInstance).1 name2 (some e2)).2 ≠ none) := by
  refine ⟨?_, ?_, ?_⟩
  · constructor
    · intro hp
      by_contra hcon
      simp only [not_or, not_exists, not_and] at hcon
      obtain ⟨hname, hinst, hdup, htyp⟩ := hcon
      cases emptyInstance with
      | none => exact hinst rfl
      | some e =>
        have ht := htyp e rfl
        apply hp
        simp [Register, hdup, ht, hname]
    · intro hcases hok
      obtain ⟨e, he, hdup, htyp, hname, _⟩ := Register_ok s name emptyInstance hok
      rcases hcases with h | h | h | ⟨e', he', h⟩
      · exact hname h
      · rw [he] at h
        cases h
      · rw [hdup] at h
        cases h
      · rw [he] at he'
        cases he'
        rw [htyp] at h
        cases h
  · intro hok second
    obtain ⟨e, _, _, _, _, hst⟩ := Register_ok s name emptyInstance hok
    have hhas : GoMap.has (Register s name emptyInstance).1.Types name = true := by
      rw [hst]
      simp [GoMap.has, GoMap.get_set_self]
    exact Register_dup_name _ name second hhas
  · intro hok e he name2 e2 hty
    obtain ⟨e', he', _, _, _, hst⟩ := Register_ok s name emptyInstance hok
    rw [he] at he'
    cases he'
    have hhas : GoMap.has (Register s name emptyInstance).1.TypeNames e2.goType = true := by
      rw [hst, hty]
      simp [GoMap.has, GoMap.get_set_self]
    exact Register_dup_type _ name2 e2 hhas

/-- C4 at the toolchain registrations: registering `CommonJSPackage` again, or the type
of the CommonJS package under the name `Other`, panics. -/
theorem Register_panics_iff_witness :
    (Register (Register Registry.empty "CommonJSPackage"
        (some ⟨"*javascript.CommonJSPackage", "", "", []⟩)).1 "CommonJSPackage"
        (some ⟨"*golang.Package", "", "", []⟩)).2 ≠ none ∧
      (Register (Register Registry.empty "CommonJSPackage"
        (some ⟨"*javascript.CommonJSPackage", "", "", []⟩)).1 "Other"
        (some versionedPackage)).2 ≠ none :=
  ⟨(Register_panics_iff Registry.empty "CommonJSPackage"
      (some ⟨"*javascript.CommonJSPackage", "", "", []⟩)).2.1 (by decide) _,
    (Register_panics_iff Registry.empty "CommonJSPackage"
      (some ⟨"*javascript.CommonJSPackage", "", "", []⟩)).2.2 (by decide) _ rfl _ _ rfl⟩

/-- C5.  From the empty registries, after a sequence of `Register` calls none of which
panicked, `Type(e) = n` for every name `n` registered with instance `e`, and for
every concrete type `t` in `TypeNames` the instance at `Types[TypeNames[t]]` has
concrete type `t`. -/
theorem Register_maps_inverse (calls : List RegisterCall)
    (h : noPanic Registry.empty calls) :
    (∀ n e, GoMap.get (registerSeq Registry.empty calls).Types n = some e →
        «Type» (registerSeq Registry.empty calls) e = n) ∧
      (∀ t n, GoMap.get (registerSeq Registry.empty calls).TypeNames t = some n →
        ∃ e, GoMap.get (registerSeq Registry.empty calls).Types n = some e ∧
          e.goType = t) := by
  have hinv := MutuallyInverse_registerSeq Registry.empty calls MutuallyInverse_empty h
  refine ⟨fun n e hget => ?_, hinv.2⟩
  unfold «Type»
  rw [hinv.1 n e hget]
  rfl

/-- C5 at the toolchain registrations. -/
theorem Register_maps_inverse_witness :
    noPanic Registry.empty toolchainCalls ∧
      (∀ n e, GoMap.get toolchainRegistry.Types n = some e →
        «Type» toolchainRegistry e = n) :=
  ⟨⟨by decide, by decide, trivial⟩,
    (Register_maps_inverse toolchainCalls ⟨by decide, by decide, trivial⟩).1⟩

/-! ## Dependency resolution -/

/-- C6.  When no `Resolve` call on the list errors, `ResolveAll` returns a nil error and
the edges of the dependencies with a non-nil resolution, in input order and
nothing else; the edges and the dependencies with a nil resolution add up to
the length of the list (one nil resolution among N leaves N-1 edges); each edge
has `FromRepo = c.URI`, `FromUnit` and `FromUnitType` of its raw dependency,
`ToRepo = repo.MakeURI(ToRepoCloneURL)` and the other four fields of its
resolved target. -/
theorem ResolveAll_edges {Ctx : Type} (quote MakeURI : String → String)
    (Resolvers : GoMap String (Resolver Ctx)) (rawDeps : List RawDependency)
    (c : Repository) (x : Ctx)
    (hok : ∀ d ∈ rawDeps, (Resolve quote Resolvers d c x).2 = none) :
    ResolveAll quote MakeURI Resolvers rawDeps c x
        = (rawDeps.filterMap (fun d =>
            (Resolve quote Resolvers d c x).1.map (fun rt =>
              { FromRepo := c.URI
                FromUnit := d.FromUnit
                FromUnitType := d.FromUnitType
                ToRepo := MakeURI rt.ToRepoCloneURL
                ToUnit := rt.ToUnit
                ToUnitType := rt.ToUnitType
                ToVersionString := rt.ToVersionString
                ToRevSpec := rt.ToRevSpec })), none) ∧
      (ResolveAll quote MakeURI Resolvers rawDeps c x).1.length
          + rawDeps.countP (fun d => (Resolve quote Resolvers d c x).1.isNone)
        = rawDeps.length := by
  have hrun : ResolveAll quote MakeURI Resolvers rawDeps c x
      = (rawDeps.filterMap (edgeOf quote MakeURI Resolvers c x), none) := by
    unfold ResolveAll
    rw [resolveLoop_ok quote MakeURI Resolvers c x rawDeps [] hok, List.nil_append]
  refine ⟨hrun, ?_⟩
  rw [hrun]
  exact filterMap_edgeOf_length quote MakeURI Resolvers c x rawDeps

/-- C6 at three dependencies of which the second has a nil resolution: two edges, the
first and the third. -/
theorem ResolveAll_edges_witness :
    ResolveAll plainQuote dropScheme sampleResolvers
        [sampleDep "a", sampleDep "skip", sampleDep "b"] sampleRepo ()
      = ([⟨"host/me", "u", "GoPackage", "host/a", "a", "GoPackage", "", ""⟩,
          ⟨"host/me", "u", "GoPackage", "host/b", "b", "GoPackage", "", ""⟩], none) :=
  (ResolveAll_edges plainQuote dropScheme sampleResolvers
    [sampleDep "a", sampleDep "skip", sampleDep "b"] sampleRepo () (by decide)).1.trans
    (by decide)

/-- C7.  When `Resolve` returns an error for some dependency of the list, `ResolveAll`
returns no edges and the error of the first such dependency in input order. -/
theorem ResolveAll_first_error {Ctx : Type} (quote MakeURI : String → String)
    (Resolvers : GoMap String (Resolver Ctx)) (rawDeps : List RawDependency)
    (c : Repository) (x : Ctx)
    (h : ∃ d ∈ rawDeps, (Resolve quote Resolvers d c x).2 ≠ none) :
    ∃ pre d post e, rawDeps = pre ++ d :: post ∧
      (∀ d' ∈ pre, (Resolve quote Resolvers d' c x).2 = none) ∧
      (Resolve quote Resolvers d c x).2 = some e ∧
      ResolveAll quote MakeURI Resolvers rawDeps c x = ([], some e) := by
  obtain ⟨pre, d, post, e, hsplit, hpre, hd⟩ :=
    exists_first_error quote Resolvers c x rawDeps h
  refine ⟨pre, d, post, e, hsplit, hpre, hd, ?_⟩
  unfold ResolveAll
  rw [hsplit]
  exact resolveLoop_error quote MakeURI Resolvers c x pre post d [] e hpre hd

/-- C7 at three dependencies of which the second fails and the third has no resolver. -/
theorem ResolveAll_first_error_witness :
    ∃ pre d post e,
      [sampleDep "a", sampleDep "bad", ⟨"u", "GoPackage", "f.go", "other", "c"⟩]
        = pre ++ d :: post ∧
      (∀ d' ∈ pre, (Resolve plainQuote sampleResolvers d' sampleRepo ()).2 = none) ∧
      (Resolve plainQuote sampleResolvers d sampleRepo ()).2 = some e ∧
      ResolveAll plainQuote dropScheme sampleResolvers
        [sampleDep "a", sampleDep "bad", ⟨"u", "GoPackage", "f.go", "other", "c"⟩]
        sampleRepo () = ([], some e) :=
  ResolveAll_first_error plainQuote dropScheme sampleResolvers
    [sampleDep "a", sampleDep "bad", ⟨"u", "GoPackage", "f.go", "other", "c"⟩] sampleRepo ()
    ⟨sampleDep "bad", by decide, by decide⟩

/-- C8.  When `dep.TargetType` is not a key of `Resolvers`, `Resolve` returns a nil target
and the error `no resolver registered for raw dependency target type` followed
by the quoted target type; when it is a key, `Resolve` returns the pair that the
resolver registered under it returns. -/
theorem Resolve_lookup {Ctx : Type} (quote : String → String)
    (Resolvers : GoMap String (Resolver Ctx)) (dep : RawDependency) (c : Repository)
    (x : Ctx) :
    (GoMap.has Resolvers dep.TargetType = false →
        Resolve quote Resolvers dep c x
          = (none, some ("no resolver registered for raw dependency target type "
              ++ quote dep.TargetType))) ∧
      (∀ r, GoMap.get Resolvers dep.TargetType = some r →
        Resolve quote Resolvers dep c x = r dep c x) := by
  constructor
  · intro h
    have hget : GoMap.get Resolvers dep.TargetType = none :=
      (GoMap.has_eq_false_iff _ _).1 h
    simp only [Resolve, hget]
  · intro r hget
    simp only [Resolve, hget]

/-- C8 at a dependency of the unregistered target type `other` and at one of the
registered target type `sample`. -/
theorem Resolve_lookup_witness :
    Resolve plainQuote sampleResolvers ⟨"u", "GoPackage", "f.go", "other", "c"⟩ sampleRepo ()
        = (none, some "no resolver registered for raw dependency target type \"other\"") ∧
      Resolve plainQuote sampleResolvers (sampleDep "a") sampleRepo ()
        = sampleResolver (sampleDep "a") sampleRepo () :=
  ⟨((Resolve_lookup plainQuote sampleResolvers ⟨"u", "GoPackage", "f.go", "other", "c"⟩
      sampleRepo ()).1 (by decide)).trans (by decide),
    (Resolve_lookup plainQuote sampleResolvers (sampleDep "a") sampleRepo ()).2
      sampleResolver rfl⟩

/-! ## Build rules -/

/-- C9.  After any sequence of `RegisterRuleMaker` calls, when no registered maker errors,
`CreateMakefile` returns a nil error and a Makefile whose first rule has target
`all` and as prerequisites the targets of all rules the makers produced, in
registration order of the makers and production order within each, whose last
rule has target `.DELETE_ON_ERROR` and no prerequisites, and whose rules in
between are the produced rules in that order; it has two rules more than were
produced. -/
theorem CreateMakefile_rules (calls : List RuleMakerCall) (buildDataDir : String)
    (c : Repository)
    (hok : ∀ o ∈ makerReturns c buildDataDir (acceptedMakers calls []) [], o.2 = none) :
    ∃ mf, CreateMakefile (registerRuleMakers BuildState.empty calls) buildDataDir c
        = CreateResult.returned (some mf) none ∧
      mf.Rules
        = ⟨"all", (producedRules c buildDataDir (acceptedMakers calls [])).map Rule.TargetFile,
            []⟩
          :: producedRules c buildDataDir (acceptedMakers calls [])
          ++ [⟨".DELETE_ON_ERROR", [], []⟩] ∧
      mf.Rules.length = (producedRules c buildDataDir (acceptedMakers calls [])).length + 2 := by
  obtain ⟨hmakers, hnames⟩ := registerRuleMakers_empty calls
  have hloop := makerLoop_ok c buildDataDir
    (registerRuleMakers BuildState.empty calls).ruleMakerNames (acceptedMakers calls []) 0 []
    (by omega) hok
  rw [List.nil_append] at hloop
  refine ⟨⟨allRuleOf (producedRules c buildDataDir (acceptedMakers calls []))
    :: producedRules c buildDataDir (acceptedMakers calls []) ++ [deleteOnErrorRule]⟩,
    ?_, rfl, by simp⟩
  unfold CreateMakefile
  rw [hmakers, hloop]
  rfl

/-- C9 at the makers `M1` with rule `t1` and `M2` with rules `t2` and `t3`. -/
theorem CreateMakefile_rules_witness :
    ∃ mf, CreateMakefile (registerRuleMakers BuildState.empty sampleMakerCalls) "data"
          sampleRepo
        = CreateResult.returned (some mf) none ∧
      mf.Rules = [⟨"all", ["t1", "t2", "t3"], []⟩, ⟨"t1", [], []⟩, ⟨"t2", ["t1"], []⟩,
        ⟨"t3", [], []⟩, ⟨".DELETE_ON_ERROR", [], []⟩] :=
  match CreateMakefile_rules sampleMakerCalls "data" sampleRepo (by decide) with
  | ⟨mf, hret, hrules, _⟩ => ⟨mf, hret, hrules.trans (by decide)⟩

/-- C10 fails as stated.  The Makefile for the makers `M1` and `M2` holds the rule
`.DELETE_ON_ERROR`, which is not the first rule, and its target is not among the
prerequisites of the first rule `all`. -/
theorem CreateMakefile_marker_not_prereq :
    ∃ mf, CreateMakefile (registerRuleMakers BuildState.empty sampleMakerCalls) "data"
          sampleRepo
        = CreateResult.returned (some mf) none ∧
      ∃ first ∈ mf.Rules.head?, first.TargetFile = "all" ∧
        ∃ r ∈ mf.Rules.tail, r.TargetFile ∉ first.PrereqFiles :=
  ⟨⟨[⟨"all", ["t1", "t2", "t3"], []⟩, ⟨"t1", [], []⟩, ⟨"t2", ["t1"], []⟩,
      ⟨"t3", [], []⟩, ⟨".DELETE_ON_ERROR", [], []⟩]⟩, by decide,
    ⟨"all", ["t1", "t2", "t3"], []⟩, by decide, by decide,
    ⟨".DELETE_ON_ERROR", [], []⟩, by decide, by decide⟩

/-- C10 as amended.  A Makefile returned by a successful `CreateMakefile` consists of the
rule `all`, then the makers' rules, then the rule `.DELETE_ON_ERROR`; each rule
strictly between the first and the last has its target among the prerequisites
of `all`, and every prerequisite of `all` is the target of a rule strictly
between the first and the last. -/
theorem CreateMakefile_all_prereqs (s : BuildState) (buildDataDir : String) (c : Repository)
    (mf : Makefile)
    (h : CreateMakefile s buildDataDir c = CreateResult.returned (some mf) none) :
    ∃ first middle last, mf.Rules = first :: middle ++ [last] ∧
      first.TargetFile = "all" ∧ last = ⟨".DELETE_ON_ERROR", [], []⟩ ∧
      (∀ r ∈ middle, r.TargetFile ∈ first.PrereqFiles) ∧
      (∀ p ∈ first.PrereqFiles, ∃ r ∈ middle, r.TargetFile = p) := by
  unfold CreateMakefile at h
  cases hloop : makerLoop c buildDataDir s.ruleMakerNames s.orderedRuleMakers 0 [] with
  | indexPanic =>
    rw [hloop] at h
    cases h
  | failed err =>
    rw [hloop] at h
    cases h
  | done allRules =>
    rw [hloop] at h
    simp only [CreateResult.returned.injEq, Option.some.injEq, and_true] at h
    subst h
    refine ⟨allRuleOf allRules, allRules, deleteOnErrorRule, rfl, rfl, rfl, ?_, ?_⟩
    · intro r hr
      exact List.mem_map_of_mem Rule.TargetFile hr
    · intro p hp
      obtain ⟨r, hr, hrp⟩ := List.mem_map.1 hp
      exact ⟨r, hr, hrp⟩

/-- C10 as amended, at the makers `M1` and `M2`. -/
theorem CreateMakefile_all_prereqs_witness :
    ∃ first middle last,
      [⟨"all", ["t1", "t2", "t3"], []⟩, ⟨"t1", [], []⟩, ⟨"t2", ["t1"], []⟩,
        ⟨"t3", [], []⟩, (⟨".DELETE_ON_ERROR", [], []⟩ : Rule)] = first :: middle ++ [last] ∧
      first.TargetFile = "all" ∧ last = ⟨".DELETE_ON_ERROR", [], []⟩ ∧
      (∀ r ∈ middle, r.TargetFile ∈ first.PrereqFiles) ∧
      (∀ p ∈ first.PrereqFiles, ∃ r ∈ middle, r.TargetFile = p) :=
  CreateMakefile_all_prereqs (registerRuleMakers BuildState.empty sampleMakerCalls) "data"
    sampleRepo
    ⟨[⟨"all", ["t1", "t2", "t3"], []⟩, ⟨"t1", [], []⟩, ⟨"t2", ["t1"], []⟩,
      ⟨"t3", [], []⟩, ⟨".DELETE_ON_ERROR", [], []⟩]⟩ (by decide)

/-! ## Facts about the registered names -/

theorem getElem?_append_length {α : Type} (l : List α) (a : α) (tl : List α) :
    (l ++ a :: tl)[l.length]? = some a := by
  rw [List.getElem?_append_right (Nat.le_refl _), Nat.sub_self]
  simp

theorem acceptedMakers_eq_map (calls : List RuleMakerCall) (seen : List String) :
    acceptedMakers calls seen = (acceptedCalls calls seen).map Prod.snd := by
  induction calls generalizing seen with
  | nil => rfl
  | cons call calls ih =>
    obtain ⟨name, r⟩ := call
    cases r with
    | none => simpa [acceptedMakers, acceptedCalls] using ih seen
    | some f =>
      by_cases hmem : name ∈ seen
      · simpa [acceptedMakers, acceptedCalls, hmem] using ih seen
      · simpa [acceptedMakers, acceptedCalls, hmem] using ih (name :: seen)

/-- The slice of names after a sequence of calls: the names of the accepted calls are
appended in call order. -/
theorem registerRuleMakers_names (calls : List RuleMakerCall) (s : BuildState)
    (seen : List String) (hseen : ∀ n, n ∈ seen ↔ GoMap.has s.RuleMakers n = true) :
    (registerRuleMakers s calls).ruleMakerNames
      = s.ruleMakerNames ++ (acceptedCalls calls seen).map Prod.fst := by
  induction calls generalizing s seen with
  | nil => simp [registerRuleMakers, acceptedCalls]
  | cons call calls ih =>
    obtain ⟨name, r⟩ := call
    cases r with
    | none =>
      have hst : (RegisterRuleMaker s name none).1 = s := by
        unfold RegisterRuleMaker
        split <;> rfl
      simp only [registerRuleMakers, acceptedCalls, hst]
      exact ih s seen hseen
    | some f =>
      by_cases hdup : GoMap.has s.RuleMakers name = true
      · have hst : (RegisterRuleMaker s name (some f)).1 = s := by
          simp [RegisterRuleMaker, hdup]
        have hmem : name ∈ seen := (hseen name).2 hdup
        simp only [registerRuleMakers, acceptedCalls, hst, hmem, if_true]
        exact ih s seen hseen
      · have hst : (RegisterRuleMaker s name (some f)).1
            = ⟨GoMap.set s.RuleMakers name f, s.ruleMakerNames ++ [name],
                s.orderedRuleMakers ++ [f]⟩ := by
          simp [RegisterRuleMaker, hdup]
        have hmem : ¬ name ∈ seen := fun h => hdup ((hseen name).1 h)
        have hseen' : ∀ n, n ∈ name :: seen
            ↔ GoMap.has (GoMap.set s.RuleMakers name f) n = true := by
          intro n
          rw [GoMap.has_set, List.mem_cons, hseen n]
        have h1 := ih ⟨GoMap.set s.RuleMakers name f, s.ruleMakerNames ++ [name],
          s.orderedRuleMakers ++ [f]⟩ (name :: seen) hseen'
        simp only [registerRuleMakers, acceptedCalls, hst, hmem, if_false]
        rw [h1]
        simp

/-- From the empty registry the two slices are the names and the makers of the accepted
calls. -/
theorem registerRuleMakers_empty_named (calls : List RuleMakerCall) :
    (registerRuleMakers BuildState.empty calls).ruleMakerNames
        = (acceptedCalls calls []).map Prod.fst ∧
      (registerRuleMakers BuildState.empty calls).orderedRuleMakers
        = (acceptedCalls calls []).map Prod.snd := by
  have hseen : ∀ n, n ∈ ([] : List String)
      ↔ GoMap.has BuildState.empty.RuleMakers n = true := by
    intro n
    simp [BuildState.empty, GoMap.has, GoMap.get]
  constructor
  · have h := registerRuleMakers_names calls BuildState.empty [] hseen
    simpa [BuildState.empty] using h
  · rw [(registerRuleMakers_empty calls).1, acceptedMakers_eq_map]

/-- The loop over named makers stops at the first maker that errors and wraps its error
with the name at its index. -/
theorem makerLoop_first_error (c : Repository) (buildDataDir : String)
    (nm : List (String × RuleMaker)) (before : List String) (allRules : List Rule)
    (h : ∃ o ∈ makerReturns c buildDataDir (nm.map Prod.snd) allRules, o.2 ≠ none) :
    ∃ pre name r post e, nm = pre ++ (name, r) :: post ∧
      (∀ o ∈ makerReturns c buildDataDir (pre.map Prod.snd) allRules, o.2 = none) ∧
      (r c buildDataDir (allRules ++
        ((makerReturns c buildDataDir (pre.map Prod.snd) allRules).map Prod.fst).flatten)).2
          = some e ∧
      makerLoop c buildDataDir (before ++ nm.map Prod.fst) (nm.map Prod.snd) before.length
          allRules
        = LoopEnd.failed ("rule maker " ++ name ++ ": " ++ e) := by
  induction nm generalizing before allRules with
  | nil =>
    obtain ⟨o, ho, _⟩ := h
    simp [makerReturns] at ho
  | cons head rest ih =>
    obtain ⟨n0, r0⟩ := head
    have hget : (before ++ n0 :: rest.map Prod.fst)[before.length]? = some n0 :=
      getElem?_append_length before n0 _
    rcases hres : r0 c buildDataDir allRules with ⟨rules, err⟩
    cases err with
    | some e =>
      refine ⟨[], n0, r0, rest, e, rfl, ?_, ?_, ?_⟩
      · intro o ho
        simp [makerReturns] at ho
      · simp [makerReturns, hres]
      · simp only [List.map_cons, makerLoop, hres, hget]
    | none =>
      have hrest : ∃ o ∈ makerReturns c buildDataDir (rest.map Prod.snd) (allRules ++ rules),
          o.2 ≠ none := by
        obtain ⟨o, ho, hne⟩ := h
        simp only [List.map_cons, makerReturns, hres, List.mem_cons] at ho
        rcases ho with heq | hmem
        · subst heq
          exact absurd rfl hne
        · exact ⟨o, hmem, hne⟩
      obtain ⟨pre, name, r, post, e, hsplit, hpre, he, hloop⟩ :=
        ih (before ++ [n0]) (allRules ++ rules) hrest
      refine ⟨(n0, r0) :: pre, name, r, post, e, by rw [hsplit]; rfl, ?_, ?_, ?_⟩
      · intro o ho
        simp only [List.map_cons, makerReturns, hres, List.mem_cons] at ho
        rcases ho with heq | hmem
        · subst heq
          rfl
        · exact hpre o hmem
      · simp only [List.map_cons, makerReturns, hres, List.flatten_cons]
        rw [← List.append_assoc]
        exact he
      · have hnames : before ++ [n0] ++ rest.map Prod.fst
            = before ++ ((n0, r0) :: rest).map Prod.fst := by simp
        have hlen : (before ++ [n0]).length = before.length + 1 := by simp
        rw [hnames, hlen] at hloop
        simp only [List.map_cons, makerLoop, hres, hget]
        simpa using hloop

/-- With a name for every maker the index expression of the loop is in range. -/
theorem makerLoop_in_bounds (c : Repository) (buildDataDir : String) (names : List String)
    (makers : List RuleMaker) (i : Nat) (allRules : List Rule)
    (hlen : i + makers.length ≤ names.length) :
    makerLoop c buildDataDir names makers i allRules ≠ LoopEnd.indexPanic := by
  induction makers generalizing i allRules with
  | nil => simp [makerLoop]
  | cons r rest ih =>
    have hi : i < names.length := by
      simp only [List.length_cons] at hlen
      omega
    have hlen' : i + 1 + rest.length ≤ names.length := by
      simp only [List.length_cons] at hlen
      omega
    rcases hres : r c buildDataDir allRules with ⟨rules, err⟩
    cases err with
    | some e => simp [makerLoop, List.getElem?_eq_getElem hi, hres]
    | none =>
      simp only [makerLoop, List.getElem?_eq_getElem hi, hres]
      exact ih (i + 1) (allRules ++ rules) hlen'

/-! ## The invariant of the rule maker registry -/

theorem GoMap.has_iff_mem {K V : Type} [DecidableEq K] (m : GoMap K V) (k : K) :
    GoMap.has m k = true ↔ k ∈ m.map Prod.fst := by
  induction m with
  | nil => simp [GoMap.has, GoMap.get]
  | cons p rest ih =>
    obtain ⟨a, b⟩ := p
    by_cases hak : a = k
    · simp [GoMap.has, GoMap.get, hak]
    · have hka : ¬ k = a := fun h => hak h.symm
      have hrest : GoMap.has (K := K) (V := V) ((a, b) :: rest) k = GoMap.has rest k := by
        simp [GoMap.has, GoMap.get, hak]
      rw [hrest, ih]
      simp [hka]

theorem GoMap.filter_of_not_has {K V : Type} [DecidableEq K] (m : GoMap K V) (k : K)
    (h : GoMap.has m k = false) : m.filter (fun p => decide (p.1 ≠ k)) = m := by
  apply List.filter_eq_self.2
  intro p hp
  have hne : p.1 ≠ k := by
    intro heq
    have hmem : k ∈ m.map Prod.fst := heq ▸ List.mem_map_of_mem Prod.fst hp
    rw [(GoMap.has_iff_mem m k).2 hmem] at h
    cases h
  simpa using hne

/-- Writing a fresh key puts one entry in front. -/
theorem GoMap.set_of_not_has {K V : Type} [DecidableEq K] (m : GoMap K V) (k : K) (v : V)
    (h : GoMap.has m k = false) : GoMap.set m k v = (k, v) :: m := by
  unfold GoMap.set
  rw [GoMap.filter_of_not_has m k h]

/-- A panicking call changes nothing. -/
theorem RegisterRuleMaker_panic (s : BuildState) (name : String) (r : Option RuleMaker)
    (h : (RegisterRuleMaker s name r).2 ≠ none) : (RegisterRuleMaker s name r).1 = s := by
  unfold RegisterRuleMaker at h ⊢
  by_cases hdup : GoMap.has s.RuleMakers name = true
  · simp [hdup]
  · cases r with
    | none => simp [hdup]
    | some f => simp [hdup] at h

theorem BuildInv_empty : BuildInv BuildState.empty := by
  refine ⟨rfl, List.nodup_nil, List.nodup_nil, rfl, ?_, ?_⟩
  · intro n
    simp [BuildState.empty, GoMap.has, GoMap.get]
  · intro i n r hn _
    simp [BuildState.empty] at hn

theorem BuildInv_RegisterRuleMaker (s : BuildState) (name : String) (r : Option RuleMaker)
    (hs : BuildInv s) : BuildInv (RegisterRuleMaker s name r).1 := by
  by_cases hp : (RegisterRuleMaker s name r).2 = none
  · obtain ⟨hlen, hnodup, hkeys, hsize, hhas, hget⟩ := hs
    have hdup : GoMap.has s.RuleMakers name = false := by
      by_contra hcon
      have htrue : GoMap.has s.RuleMakers name = true := by simpa using hcon
      simp [RegisterRuleMaker, htrue] at hp
    cases r with
    | none => simp [RegisterRuleMaker, hdup] at hp
    | some f =>
      have hst : (RegisterRuleMaker s name (some f)).1
          = ⟨GoMap.set s.RuleMakers name f, s.ruleMakerNames ++ [name],
              s.orderedRuleMakers ++ [f]⟩ := by
        simp [RegisterRuleMaker, hdup]
      have hfresh : name ∉ s.ruleMakerNames := by
        intro hmem
        rw [(hhas name).2 hmem] at hdup
        cases hdup
      have hfreshKey : name ∉ s.RuleMakers.map Prod.fst := by
        intro hmem
        rw [(GoMap.has_iff_mem _ _).2 hmem] at hdup
        cases hdup
      rw [hst]
      refine ⟨?_, ?_, ?_, ?_, ?_, ?_⟩
      · simp [hlen]
      · exact List.nodup_append.2 ⟨hnodup, List.nodup_singleton _,
          by
            intro a ha hb
            rw [List.mem_singleton] at hb
            exact hfresh (hb ▸ ha)⟩
      · show ((GoMap.set s.RuleMakers name f).map Prod.fst).Nodup
        rw [GoMap.set_of_not_has _ _ _ hdup, List.map_cons]
        exact List.nodup_cons.2 ⟨hfreshKey, hkeys⟩
      · show (GoMap.set s.RuleMakers name f).length = (s.ruleMakerNames ++ [name]).length
        rw [GoMap.set_of_not_has _ _ _ hdup]
        simp [hsize]
      · intro n
        show GoMap.has (GoMap.set s.RuleMakers name f) n = true
          ↔ n ∈ s.ruleMakerNames ++ [name]
        rw [GoMap.has_set, hhas n, List.mem_append, List.mem_singleton]
        exact Or.comm
      · intro i n g hn hg
        show GoMap.get (GoMap.set s.RuleMakers name f) n = some g
        have hn' : (s.ruleMakerNames ++ [name])[i]? = some n := hn
        have hg' : (s.orderedRuleMakers ++ [f])[i]? = some g := hg
        by_cases hi : i < s.ruleMakerNames.length
        · rw [List.getElem?_append_left hi] at hn'
          rw [List.getElem?_append_left (hlen ▸ hi)] at hg'
          have hmem : n ∈ s.ruleMakerNames := List.getElem?_mem hn'
          have hne : n ≠ name := fun heq => hfresh (heq ▸ hmem)
          rw [GoMap.get_set_ne _ _ _ _ hne]
          exact hget i n g hn' hg'
        · have hi1 : s.ruleMakerNames.length ≤ i := Nat.le_of_not_lt hi
          have hi2 : s.orderedRuleMakers.length ≤ i := hlen ▸ hi1
          rw [List.getElem?_append_right hi1] at hn'
          rw [List.getElem?_append_right hi2] at hg'
          have hz : i - s.ruleMakerNames.length = 0 := by
            by_contra hnz
            have hpos : 1 ≤ i - s.ruleMakerNames.length := Nat.one_le_iff_ne_zero.2 hnz
            rw [List.getElem?_eq_none (by simpa using hpos)] at hn'
            cases hn'
          have hz' : i - s.orderedRuleMakers.length = 0 := by rw [← hlen]; exact hz
          rw [hz] at hn'
          rw [hz'] at hg'
          simp only [List.getElem?_cons_zero, Option.some.injEq] at hn' hg'
          subst hn'
          subst hg'
          exact GoMap.get_set_self _ _ _
  · rw [RegisterRuleMaker_panic s name r hp]
    exact hs

theorem BuildInv_registerRuleMakers (calls : List RuleMakerCall) (s : BuildState)
    (hs : BuildInv s) : BuildInv (registerRuleMakers s calls) := by
  induction calls generalizing s with
  | nil => exact hs
  | cons call calls ih => exact ih _ (BuildInv_RegisterRuleMaker s call.1 call.2 hs)

/-! ## Facts about the uniqueness loop -/

section CheckSymbolsFacts

variable (quote : String → String) (showSymbol : Symbol → String)

/-- Storing a symbol with an unseen path keeps the map in step with the symbols passed. -/
theorem seen_step (seen : GoMap String Symbol) (done : List Symbol) (s : Symbol)
    (hinv : ∀ p s0, GoMap.get seen p = some s0 ↔ (s0 ∈ done ∧ s0.Path = p))
    (hnew : GoMap.get seen s.Path = none) :
    ∀ p s0, GoMap.get (GoMap.set seen s.Path s) p = some s0
      ↔ (s0 ∈ done ++ [s] ∧ s0.Path = p) := by
  intro p s0
  by_cases hp : p = s.Path
  · subst hp
    rw [GoMap.get_set_self]
    constructor
    · intro h
      cases h
      exact ⟨by simp, rfl⟩
    · rintro ⟨hmem, hpath⟩
      rcases List.mem_append.1 hmem with hd | hs
      · have hget := (hinv s.Path s0).2 ⟨hd, hpath⟩
        rw [hnew] at hget
        cases hget
      · rw [List.mem_singleton] at hs
        rw [hs]
  · rw [GoMap.get_set_ne _ _ _ _ hp, hinv p s0]
    constructor
    · rintro ⟨hmem, hpath⟩
      exact ⟨List.mem_append_left _ hmem, hpath⟩
    · rintro ⟨hmem, hpath⟩
      rcases List.mem_append.1 hmem with hd | hs
      · exact ⟨hd, hpath⟩
      · rw [List.mem_singleton] at hs
        subst hs
        exact absurd hpath.symm hp

/-- A symbol whose path differs from those passed is not in the map. -/
theorem seen_fresh (seen : GoMap String Symbol) (done rest : List Symbol) (s : Symbol)
    (hinv : ∀ p s0, GoMap.get seen p = some s0 ↔ (s0 ∈ done ∧ s0.Path = p))
    (hnd : ((done ++ s :: rest).map Symbol.Path).Nodup) :
    GoMap.get seen s.Path = none := by
  cases hget : GoMap.get seen s.Path with
  | none => rfl
  | some s0 =>
    obtain ⟨hmem, hpath⟩ := (hinv s.Path s0).1 hget
    rw [List.map_append, List.map_cons] at hnd
    have hdisj := (List.nodup_append.1 hnd).2.2
    exact absurd (List.mem_cons_self _ _)
      (fun h2 => hdisj (hpath ▸ List.mem_map_of_mem Symbol.Path hmem) h2)

/-- The loop finds no duplicate among symbols with pairwise different paths. -/
theorem checkSymbols_unique (syms : List Symbol) (seen : GoMap String Symbol)
    (done : List Symbol)
    (hinv : ∀ p s0, GoMap.get seen p = some s0 ↔ (s0 ∈ done ∧ s0.Path = p))
    (hnd : ((done ++ syms).map Symbol.Path).Nodup) :
    checkSymbols quote showSymbol syms seen = none := by
  induction syms generalizing seen done with
  | nil => rfl
  | cons s rest ih =>
    have hnew := seen_fresh seen done rest s hinv hnd
    simp only [checkSymbols, hnew]
    apply ih _ (done ++ [s]) (seen_step seen done s hinv hnew)
    rw [List.append_assoc]
    exact hnd

/-- The loop stops at the first symbol whose path was passed before and reports it
together with the symbol stored under that path. -/
theorem checkSymbols_duplicate (mid post : List Symbol) (s : Symbol)
    (seen : GoMap String Symbol) (done : List Symbol)
    (hinv : ∀ p s0, GoMap.get seen p = some s0 ↔ (s0 ∈ done ∧ s0.Path = p))
    (hnd : ((done ++ mid).map Symbol.Path).Nodup)
    (hs : s.Path ∈ (done ++ mid).map Symbol.Path) :
    ∃ s0 ∈ done ++ mid, s0.Path = s.Path ∧
      checkSymbols quote showSymbol (mid ++ s :: post) seen
        = some (duplicatePathError quote showSymbol s.Path s0 s) := by
  induction mid generalizing seen done with
  | nil =>
    rw [List.append_nil] at hs
    obtain ⟨s0, hmem, hpath⟩ := List.mem_map.1 hs
    have hget := (hinv s.Path s0).2 ⟨hmem, hpath⟩
    refine ⟨s0, by simpa using hmem, hpath, ?_⟩
    simp only [List.nil_append, checkSymbols, hget]
  | cons m rest ih =>
    have hnew := seen_fresh seen done rest m hinv hnd
    have hnd' : ((done ++ [m] ++ rest).map Symbol.Path).Nodup := by
      rw [List.append_assoc]
      exact hnd
    have hs' : s.Path ∈ (done ++ [m] ++ rest).map Symbol.Path := by
      rw [List.append_assoc]
      exact hs
    obtain ⟨s0, hmem, hpath, hrun⟩ :=
      ih _ (done ++ [m]) (seen_step seen done m hinv hnew) hnd' hs'
    refine ⟨s0, by simpa [List.append_assoc] using hmem, hpath, ?_⟩
    simp only [List.cons_append, checkSymbols, hnew]
    exact hrun

/-- A list in which a path repeats splits at the first symbol that repeats one. -/
theorem exists_first_repeat (syms : List Symbol)
    (h : ¬ (syms.map Symbol.Path).Nodup) :
    ∃ mid s post, syms = mid ++ s :: post ∧ (mid.map Symbol.Path).Nodup ∧
      s.Path ∈ mid.map Symbol.Path := by
  induction syms using List.reverseRecOn with
  | nil => exact absurd List.nodup_nil h
  | append_singleton l a ih =>
    by_cases hl : (l.map Symbol.Path).Nodup
    · refine ⟨l, a, [], rfl, hl, ?_⟩
      by_contra hmem
      apply h
      rw [List.map_append]
      refine List.nodup_append.2 ⟨hl, by simp, ?_⟩
      intro p hp hq
      simp only [List.map_cons, List.map_nil, List.mem_singleton] at hq
      exact hmem (hq ▸ hp)
    · obtain ⟨mid, s, post, hsplit, hnd, hmem⟩ := ih hl
      exact ⟨mid, s, post ++ [a], by rw [hsplit]; simp, hnd, hmem⟩

end CheckSymbolsFacts

/-! ## Build rules: errors, order of invocation, registration -/

/-- C11.  When some registered rule maker returns an error, `CreateMakefile` returns a nil
Makefile and the error `rule maker <name>: <err>`, where `<name>` is the name
under which the first erroring maker, in registration order, was registered and
`<err>` is its error; the makers registered after it have no part in the
result. -/
theorem CreateMakefile_first_error (calls : List RuleMakerCall) (buildDataDir : String)
    (c : Repository)
    (h : ∃ o ∈ makerReturns c buildDataDir (acceptedMakers calls []) [], o.2 ≠ none) :
    ∃ pre name r post e, acceptedCalls calls [] = pre ++ (name, r) :: post ∧
      (∀ o ∈ makerReturns c buildDataDir (pre.map Prod.snd) [], o.2 = none) ∧
      (r c buildDataDir (producedRules c buildDataDir (pre.map Prod.snd))).2 = some e ∧
      CreateMakefile (registerRuleMakers BuildState.empty calls) buildDataDir c
        = CreateResult.returned none (some ("rule maker " ++ name ++ ": " ++ e)) := by
  rw [acceptedMakers_eq_map] at h
  obtain ⟨pre, name, r, post, e, hsplit, hpre, he, hloop⟩ :=
    makerLoop_first_error c buildDataDir (acceptedCalls calls []) [] [] h
  obtain ⟨hnames, hmakers⟩ := registerRuleMakers_empty_named calls
  refine ⟨pre, name, r, post, e, hsplit, hpre, ?_, ?_⟩
  · rw [List.nil_append] at he
    exact he
  · rw [List.nil_append, List.length_nil] at hloop
    unfold CreateMakefile
    rw [hnames, hmakers, hloop]

/-- C11 at the makers `M1`, a failing maker registered as `bad`, and `M2`. -/
theorem CreateMakefile_first_error_witness :
    ∃ pre name r post e, acceptedCalls failingMakerCalls [] = pre ++ (name, r) :: post ∧
      (∀ o ∈ makerReturns sampleRepo "data" (pre.map Prod.snd) [], o.2 = none) ∧
      (r sampleRepo "data" (producedRules sampleRepo "data" (pre.map Prod.snd))).2 = some e ∧
      CreateMakefile (registerRuleMakers BuildState.empty failingMakerCalls) "data" sampleRepo
        = CreateResult.returned none (some ("rule maker " ++ name ++ ": " ++ e)) :=
  CreateMakefile_first_error failingMakerCalls "data" sampleRepo
    ⟨([⟨"partial", [], []⟩], some "boom"), by decide, by decide⟩

theorem makerReturns_getElem? (c : Repository) (buildDataDir : String)
    (makers : List RuleMaker) (acc : List Rule) (j : Nat) :
    (makerReturns c buildDataDir makers acc)[j]?
      = makers[j]?.map (fun r => r c buildDataDir
          (acc ++ (((makerReturns c buildDataDir makers acc).take j).map Prod.fst).flatten)) := by
  induction makers generalizing acc j with
  | nil => simp [makerReturns]
  | cons r rest ih =>
    cases j with
    | zero => simp [makerReturns]
    | succ j =>
      simp only [makerReturns, List.getElem?_cons_succ, List.take_succ_cons, List.map_cons,
        List.flatten_cons]
      rw [ih]
      simp [List.append_assoc]

/-- The list described for position `j` is what the first `j` makers return when the list
is threaded through them. -/
theorem existingFor_eq (c : Repository) (buildDataDir : String) (makers : List RuleMaker)
    (j : Nat) :
    existingFor c buildDataDir makers j
      = (((makerReturns c buildDataDir makers []).take j).map Prod.fst).flatten := by
  induction j with
  | zero => simp [existingFor]
  | succ j ih =>
    have hget := makerReturns_getElem? c buildDataDir makers [] j
    rw [List.nil_append, ← ih] at hget
    rw [existingFor, List.take_succ, List.map_append, List.flatten_append, ← ih, hget]
    cases makers[j]? with
    | none => simp
    | some r => simp

theorem returnedAt_eq (c : Repository) (buildDataDir : String) (makers : List RuleMaker)
    (j : Nat) :
    returnedAt c buildDataDir makers j = (makerReturns c buildDataDir makers [])[j]? := by
  rw [makerReturns_getElem?, List.nil_append, ← existingFor_eq]
  rfl

theorem existingFor_range (c : Repository) (buildDataDir : String) (makers : List RuleMaker)
    (j : Nat) :
    existingFor c buildDataDir makers j
      = ((List.range j).map (fun k =>
          ((returnedAt c buildDataDir makers k).map Prod.fst).getD [])).flatten := by
  induction j with
  | zero => simp [existingFor]
  | succ j ih =>
    rw [existingFor, List.range_succ, List.map_append, List.flatten_append, ← ih]
    unfold returnedAt
    rcases hm : makers[j]? with _ | r
    · simp [hm]
    · simp [hm]

/-- The loop over named makers fails at position `k` with the name at that position when
the makers before it return nil errors and the one at `k` an error. -/
theorem makerLoop_error_at (c : Repository) (buildDataDir : String)
    (nm : List (String × RuleMaker)) (before : List String) (acc : List Rule) (k : Nat)
    (name : String) (r : RuleMaker) (e : String)
    (hk : nm[k]? = some (name, r))
    (hpre : ∀ j o, j < k →
      (makerReturns c buildDataDir (nm.map Prod.snd) acc)[j]? = some o → o.2 = none)
    (he : (r c buildDataDir (acc ++
      (((makerReturns c buildDataDir (nm.map Prod.snd) acc).take k).map Prod.fst).flatten)).2
        = some e) :
    makerLoop c buildDataDir (before ++ nm.map Prod.fst) (nm.map Prod.snd) before.length acc
      = LoopEnd.failed ("rule maker " ++ name ++ ": " ++ e) := by
  induction nm generalizing before acc k with
  | nil => simp at hk
  | cons head rest ih =>
    obtain ⟨n0, r0⟩ := head
    have hget : (before ++ n0 :: rest.map Prod.fst)[before.length]? = some n0 :=
      getElem?_append_length before n0 _
    cases k with
    | zero =>
      simp only [List.getElem?_cons_zero, Option.some.injEq, Prod.mk.injEq] at hk
      obtain ⟨hn, hr⟩ := hk
      subst hn
      subst hr
      simp only [List.take_zero, List.map_nil, List.flatten_nil, List.append_nil] at he
      rcases hres : r0 c buildDataDir acc with ⟨rules, err⟩
      rw [hres] at he
      simp only at he
      subst he
      simp only [List.map_cons, makerLoop, hget, hres]
    | succ k =>
      rcases hres : r0 c buildDataDir acc with ⟨rules, err⟩
      have h0 := hpre 0 (rules, err) (Nat.succ_pos k) (by simp [makerReturns, hres])
      simp only at h0
      subst h0
      have hret : makerReturns c buildDataDir (((n0, r0) :: rest).map Prod.snd) acc
          = (rules, none) :: makerReturns c buildDataDir (rest.map Prod.snd) (acc ++ rules) := by
        simp only [List.map_cons, makerReturns, hres]
      rw [hret] at hpre he
      have hloop := ih (before ++ [n0]) (acc ++ rules) k
        (by simpa using hk)
        (fun j o hj ho => hpre (j + 1) o (Nat.succ_lt_succ hj) (by simpa using ho))
        (by
          simp only [List.take_succ_cons, List.map_cons, List.flatten_cons] at he
          rw [List.append_assoc]
          exact he)
      have hnames : before ++ [n0] ++ rest.map Prod.fst
          = before ++ ((n0, r0) :: rest).map Prod.fst := by simp
      have hlen : (before ++ [n0]).length = before.length + 1 := by simp
      rw [hnames, hlen] at hloop
      simp only [List.map_cons, makerLoop, hget, hres]
      simpa using hloop

theorem makerReturns_length (c : Repository) (buildDataDir : String)
    (makers : List RuleMaker) (acc : List Rule) :
    (makerReturns c buildDataDir makers acc).length = makers.length := by
  induction makers generalizing acc with
  | nil => rfl
  | cons r rest ih => simp [makerReturns, ih]

/-- In a list of returns either every error is nil or there is a first one that is not. -/
theorem first_error_index (returns : List (List Rule × Option String)) :
    (∀ o ∈ returns, o.2 = none) ∨
      ∃ (k : Nat) (o : List Rule × Option String) (e : String),
        returns[k]? = some o ∧ o.2 = some e ∧
        ∀ (j : Nat) (o' : List Rule × Option String),
          j < k → returns[j]? = some o' → o'.2 = none := by
  induction returns with
  | nil => exact Or.inl (fun o ho => by cases ho)
  | cons a rest ih =>
    cases ha : a.2 with
    | some e =>
      exact Or.inr ⟨0, a, e, by simp, ha, fun j o' hj _ => absurd hj (Nat.not_lt_zero j)⟩
    | none =>
      rcases ih with hall | ⟨k, o, e, hk, he, hpre⟩
      · left
        intro o ho
        rcases List.mem_cons.1 ho with heq | hmem
        · rw [heq]
          exact ha
        · exact hall o hmem
      · right
        refine ⟨k + 1, o, e, by simpa using hk, he, ?_⟩
        intro j o' hj ho'
        cases j with
        | zero =>
          simp only [List.getElem?_cons_zero, Option.some.injEq] at ho'
          rw [← ho']
          exact ha
        | succ j => exact hpre j o' (Nat.lt_of_succ_lt_succ hj) (by simpa using ho')

/-- C12.  After any sequence of `RegisterRuleMaker` calls, take the makers in the order of
their registration and let the maker at position `j` receive as `existing` the
concatenation, in order, of the rule lists returned by the makers at positions
`0` to `j-1` (the empty list at position `0`; neither `all` nor the marker rule
is in it).  Then `CreateMakefile` returns what these invocations, made in this
order, give: when each returns a nil error, the Makefile built from the list
for the position after the last maker; when the maker at position `k` is the
first to return an error, that error under the name registered at position
`k`; and one of the two is the case. -/
theorem CreateMakefile_existing (calls : List RuleMakerCall) (buildDataDir : String)
    (c : Repository) :
    (∀ j, existingFor c buildDataDir (acceptedMakers calls []) j
        = ((List.range j).map (fun k =>
            ((returnedAt c buildDataDir (acceptedMakers calls []) k).map Prod.fst).getD
              [])).flatten) ∧
      ((∀ j o, returnedAt c buildDataDir (acceptedMakers calls []) j = some o → o.2 = none) →
        CreateMakefile (registerRuleMakers BuildState.empty calls) buildDataDir c
          = CreateResult.returned
              (some ⟨⟨"all", (existingFor c buildDataDir (acceptedMakers calls [])
                    (acceptedMakers calls []).length).map Rule.TargetFile, []⟩
                :: existingFor c buildDataDir (acceptedMakers calls [])
                    (acceptedMakers calls []).length
                ++ [⟨".DELETE_ON_ERROR", [], []⟩]⟩) none) ∧
      (∀ k name r e, (acceptedCalls calls [])[k]? = some (name, r) →
        (∀ j o, j < k →
          returnedAt c buildDataDir (acceptedMakers calls []) j = some o → o.2 = none) →
        (r c buildDataDir (existingFor c buildDataDir (acceptedMakers calls []) k)).2
          = some e →
        CreateMakefile (registerRuleMakers BuildState.empty calls) buildDataDir c
          = CreateResult.returned none (some ("rule maker " ++ name ++ ": " ++ e))) ∧
      ((∀ j o, returnedAt c buildDataDir (acceptedMakers calls []) j = some o → o.2 = none) ∨
        ∃ k name r e, (acceptedCalls calls [])[k]? = some (name, r) ∧
          (∀ j o, j < k →
            returnedAt c buildDataDir (acceptedMakers calls []) j = some o → o.2 = none) ∧
          (r c buildDataDir (existingFor c buildDataDir (acceptedMakers calls []) k)).2
            = some e) := by
  obtain ⟨hnames, hmakers⟩ := registerRuleMakers_empty_named calls
  have hmap := acceptedMakers_eq_map calls []
  refine ⟨existingFor_range c buildDataDir _, ?_, ?_, ?_⟩
  · intro hall
    have hok : ∀ o ∈ makerReturns c buildDataDir (acceptedMakers calls []) [], o.2 = none := by
      intro o ho
      obtain ⟨j, hj⟩ := List.mem_iff_getElem?.1 ho
      exact hall j o (by rw [returnedAt_eq]; exact hj)
    have hlen : 0 + (acceptedMakers calls []).length
        ≤ (registerRuleMakers BuildState.empty calls).ruleMakerNames.length := by
      rw [(registerRuleMakers_empty calls).2]
      omega
    have hloop := makerLoop_ok c buildDataDir
      (registerRuleMakers BuildState.empty calls).ruleMakerNames (acceptedMakers calls []) 0 []
      hlen hok
    have hex : existingFor c buildDataDir (acceptedMakers calls [])
        (acceptedMakers calls []).length
        = ((makerReturns c buildDataDir (acceptedMakers calls []) []).map Prod.fst).flatten := by
      rw [existingFor_eq, List.take_of_length_le
        (Nat.le_of_eq (makerReturns_length c buildDataDir _ _))]
    rw [List.nil_append, ← hex] at hloop
    unfold CreateMakefile
    rw [(registerRuleMakers_empty calls).1, hloop]
    rfl
  · intro k name r e hk hpre he
    rw [hmap] at hpre he
    have hloop := makerLoop_error_at c buildDataDir (acceptedCalls calls []) [] [] k name r e hk
      (fun j o hj ho => hpre j o hj (by rw [returnedAt_eq]; exact ho))
      (by
        rw [List.nil_append, ← existingFor_eq]
        exact he)
    rw [List.nil_append, List.length_nil] at hloop
    unfold CreateMakefile
    rw [hnames, hmakers, hloop]
  · rcases first_error_index (makerReturns c buildDataDir (acceptedMakers calls []) []) with
      hall | ⟨k, o, e, hk, he, hpre⟩
    · left
      intro j o ho
      rw [returnedAt_eq] at ho
      exact hall o (List.getElem?_mem ho)
    · right
      rw [← returnedAt_eq] at hk
      have hk' := hk
      unfold returnedAt at hk'
      rw [hmap, List.getElem?_map] at hk'
      rcases hnm : (acceptedCalls calls [])[k]? with _ | ⟨name, r⟩
      · rw [hnm] at hk'
        cases hk'
      · rw [hnm] at hk'
        simp only [Option.map_some', Option.some.injEq] at hk'
        refine ⟨k, name, r, e, hnm, ?_, ?_⟩
        · intro j o' hj ho'
          rw [returnedAt_eq] at ho'
          exact hpre j o' hj ho'
        · rw [hmap, hk']
          exact he

/-- C12 at the makers `M1` and `M2`, where the rule `t2` of `M2` lists the targets of the
rules that `M2` received, and at the makers `M1`, `bad` and `M2`, where `bad`
fails. -/
theorem CreateMakefile_existing_witness :
    CreateMakefile (registerRuleMakers BuildState.empty sampleMakerCalls) "data" sampleRepo
        = CreateResult.returned
            (some ⟨[⟨"all", ["t1", "t2", "t3"], []⟩, ⟨"t1", [], []⟩, ⟨"t2", ["t1"], []⟩,
              ⟨"t3", [], []⟩, ⟨".DELETE_ON_ERROR", [], []⟩]⟩) none ∧
      CreateMakefile (registerRuleMakers BuildState.empty failingMakerCalls) "data" sampleRepo
        = CreateResult.returned none (some "rule maker bad: boom") :=
  ⟨((CreateMakefile_existing sampleMakerCalls "data" sampleRepo).2.1
      (fun j o ho =>
        match j, ho with
        | 0, ho => (Option.some.inj ho) ▸ rfl
        | 1, ho => (Option.some.inj ho) ▸ rfl
        | _ + 2, ho => nomatch ho)).trans (by decide),
    ((CreateMakefile_existing failingMakerCalls "data" sampleRepo).2.2.1 1 "bad" makerBad
      "boom" rfl
      (fun j o hj ho =>
        match j, hj, ho with
        | 0, _, ho => (Option.some.inj ho) ▸ rfl
        | _ + 1, hj, _ => absurd (Nat.lt_of_succ_lt_succ hj) (Nat.not_lt_zero _))
      rfl).trans (by decide)⟩

/-- C13, at a failing input.  On the empty registry `RegisterRuleMaker("", r)` with a
non-nil `r` does not panic: it records `r` under the empty name. -/
theorem RegisterRuleMaker_empty_name :
    (RegisterRuleMaker BuildState.empty "" (some makerM1)).2 = none ∧
      (RegisterRuleMaker BuildState.empty "" (some makerM1)).1.ruleMakerNames = [""] ∧
      GoMap.has (RegisterRuleMaker BuildState.empty "" (some makerM1)).1.RuleMakers ""
        = true := by
  decide

/-! ## The uniqueness check of the grapher -/

/-- C14 fails as stated.  In the output with the symbols `F` of `a.go`, `F` of `b.go` and
`F` of `c.go`, the second and the third have the same key, and
`DockerGrapher.Graph` returns the duplicate-path error that names the first as
symbol 1 and the second as symbol 2, which is not the error that names the
second as symbol 1 and the third as symbol 2. -/
theorem Graph_third_duplicate :
    symbolF2.key = symbolF3.key ∧
      DockerGrapher.Graph plainQuote fileAndName
          (decodedRun ⟨[symbolF] ++ symbolF2 :: [] ++ symbolF3 :: [], [], []⟩)
        = (none, some
            "duplicate path in symbols output: \"F\"\nsymbol 1: a.go:F\nsymbol 2: b.go:F") ∧
      DockerGrapher.Graph plainQuote fileAndName
          (decodedRun ⟨[symbolF] ++ symbolF2 :: [] ++ symbolF3 :: [], [], []⟩)
        ≠ (none, some (duplicatePathError plainQuote fileAndName "F" symbolF2 symbolF3)) := by
  refine ⟨by decide, by decide, by decide⟩

/-- C14 as amended.  When the deserialized output holds two symbols at different positions
with the same `(Repo, Unit, UnitType, Path)`, `DockerGrapher.Graph` returns a nil
output and the duplicate-path error for the first symbol in input order that
repeats a path, named as symbol 2, and the earlier symbol with that path, named
as symbol 1; when no path repeats before the later of the two given symbols,
these are the two given symbols. -/
theorem Graph_duplicate_path (quote : String → String) (showSymbol : Symbol → String)
    (output : Output) (l1 l2 l3 : List Symbol) (a b : Symbol)
    (hsyms : output.Symbols = l1 ++ a :: l2 ++ b :: l3) (hkey : a.key = b.key) :
    (∃ pre s0 mid s post, output.Symbols = pre ++ s0 :: mid ++ s :: post ∧
        s0.Path = s.Path ∧ ((pre ++ s0 :: mid).map Symbol.Path).Nodup ∧
        DockerGrapher.Graph quote showSymbol (decodedRun output)
          = (none, some (duplicatePathError quote showSymbol s.Path s0 s))) ∧
      (((l1 ++ a :: l2).map Symbol.Path).Nodup →
        DockerGrapher.Graph quote showSymbol (decodedRun output)
          = (none, some (duplicatePathError quote showSymbol b.Path a b))) := by
  have hpath : a.Path = b.Path := by
    have h4 := congrArg (fun k => k.2.2.2) hkey
    exact h4
  have hempty : ∀ p s0, GoMap.get ([] : GoMap String Symbol) p = some s0
      ↔ (s0 ∈ ([] : List Symbol) ∧ s0.Path = p) := by
    intro p s0
    simp [GoMap.get]
  constructor
  · have hnot : ¬ (output.Symbols.map Symbol.Path).Nodup := by
      rw [hsyms]
      intro hnd
      simp only [List.map_append, List.map_cons] at hnd
      have hdisj := (List.nodup_append.1 hnd).2.2
      exact hdisj (List.mem_append_right _ (List.mem_cons_self _ _))
        (hpath ▸ List.mem_cons_self _ _)
    obtain ⟨mid, s, post, hsplit, hnd, hmem⟩ := exists_first_repeat output.Symbols hnot
    obtain ⟨s0, hs0, hs0path, hrun⟩ := checkSymbols_duplicate quote showSymbol mid post s
      [] [] hempty (by simpa using hnd) (by simpa using hmem)
    rw [List.nil_append] at hs0
    obtain ⟨pre, mid', hmid⟩ := List.append_of_mem hs0
    refine ⟨pre, s0, mid', s, post, ?_, hs0path, ?_, ?_⟩
    · rw [hsplit, hmid]
    · rw [← hmid]
      exact hnd
    · simp only [DockerGrapher.Graph, decodedRun]
      rw [hsplit, hrun]
  · intro hnd
    obtain ⟨s0, hs0, hs0path, hrun⟩ := checkSymbols_duplicate quote showSymbol
      (l1 ++ a :: l2) l3 b [] [] hempty (by simpa using hnd)
      (by
        rw [List.nil_append, ← hpath]
        exact List.mem_map_of_mem Symbol.Path (List.mem_append_right _ (List.mem_cons_self _ _)))
    rw [List.nil_append] at hs0
    have ha : a ∈ l1 ++ a :: l2 := List.mem_append_right _ (List.mem_cons_self _ _)
    have heq : s0 = a := List.inj_on_of_nodup_map hnd hs0 ha (hs0path.trans hpath.symm)
    subst heq
    simp only [DockerGrapher.Graph, decodedRun]
    rw [hsyms, hrun]

/-- C14 as amended, at an output with `G` between two symbols of the same key. -/
theorem Graph_duplicate_path_witness :
    DockerGrapher.Graph plainQuote fileAndName
        (decodedRun ⟨[symbolF, symbolG, symbolF2], [], []⟩)
      = (none, some "duplicate path in symbols output: \"F\"\nsymbol 1: a.go:F\nsymbol 2: b.go:F") :=
  ((Graph_duplicate_path plainQuote fileAndName ⟨[symbolF, symbolG, symbolF2], [], []⟩
    [] [symbolG] [] symbolF symbolF2 rfl rfl).2 (by decide)).trans (by decide)

/-- C15 fails as stated.  The symbols `F` of unit `pkg` and `F` of unit `pkg/sub` have
different keys `(Repo, Unit, UnitType, Path)`, yet on the output that holds the
two `DockerGrapher.Graph` returns a nil output and the duplicate-path error. -/
theorem Graph_same_path_other_unit :
    ((⟨[symbolF, symbolSubF], [], []⟩ : Output).Symbols.map Symbol.key).Nodup ∧
      DockerGrapher.Graph plainQuote fileAndName (decodedRun ⟨[symbolF, symbolSubF], [], []⟩)
        = (none, some (duplicatePathError plainQuote fileAndName "F" symbolF symbolSubF)) := by
  constructor
  · decide
  · decide

/-- C15 as amended.  When no two symbols of the deserialized output share a `Path`, the
uniqueness check succeeds and `DockerGrapher.Graph` returns the deserialized
output itself, with a nil error. -/
theorem Graph_unique_paths (quote : String → String) (showSymbol : Symbol → String)
    (output : Output) (hnd : (output.Symbols.map Symbol.Path).Nodup) :
    DockerGrapher.Graph quote showSymbol (decodedRun output) = (some output, none) := by
  have hempty : ∀ p s0, GoMap.get ([] : GoMap String Symbol) p = some s0
      ↔ (s0 ∈ ([] : List Symbol) ∧ s0.Path = p) := by
    intro p s0
    simp [GoMap.get]
  have hrun := checkSymbols_unique quote showSymbol output.Symbols [] [] hempty
    (by simpa using hnd)
  simp only [DockerGrapher.Graph, decodedRun]
  rw [hrun]

/-- C15 as amended, at the output with the symbols `F` and `G`. -/
theorem Graph_unique_paths_witness :
    DockerGrapher.Graph plainQuote fileAndName (decodedRun ⟨[symbolF, symbolG], [], []⟩)
      = (some ⟨[symbolF, symbolG], [], []⟩, none) :=
  Graph_unique_paths plainQuote fileAndName ⟨[symbolF, symbolG], [], []⟩ (by decide)

/-! ## The resolver registry -/

/-- A call of `RegisterResolver` keeps the resolver of every key that has one. -/
theorem RegisterResolver_keeps {Ctx : Type} (Resolvers : GoMap String (Resolver Ctx))
    (targetType : String) (resolver : Option (Resolver Ctx)) (k : String)
    (r0 : Resolver Ctx) (h : GoMap.get Resolvers k = some r0) :
    GoMap.get (RegisterResolver Resolvers targetType resolver).1 k = some r0 := by
  unfold RegisterResolver
  by_cases hdup : GoMap.has Resolvers targetType = true
  · simpa [hdup] using h
  · cases resolver with
    | none => simpa [hdup] using h
    | some f =>
      have hne : k ≠ targetType := by
        intro heq
        apply hdup
        rw [← heq]
        simp [GoMap.has, h]
      simp only [hdup, Bool.false_eq_true, if_false]
      rw [GoMap.get_set_ne _ _ _ _ hne]
      exact h

theorem registerResolvers_keeps {Ctx : Type} (calls : List (String × Option (Resolver Ctx)))
    (Resolvers : GoMap String (Resolver Ctx)) (k : String) (r0 : Resolver Ctx)
    (h : GoMap.get Resolvers k = some r0) :
    GoMap.get (registerResolvers Resolvers calls) k = some r0 := by
  induction calls generalizing Resolvers with
  | nil => exact h
  | cons call calls ih =>
    exact ih _ (RegisterResolver_keeps Resolvers call.1 call.2 k r0 h)

/-- C16.  `RegisterResolver(t, r)` panics exactly when `t` is a key of `Resolvers` or `r` is
nil; when it does not panic, `Resolvers[t]` is `r` afterwards and every other
key maps to what it mapped to before; and whatever calls follow, a key that has
a resolver keeps that resolver. -/
theorem RegisterResolver_write_once {Ctx : Type} (Resolvers : GoMap String (Resolver Ctx))
    (targetType : String) (resolver : Option (Resolver Ctx)) :
    ((RegisterResolver Resolvers targetType resolver).2 ≠ none ↔
        (GoMap.has Resolvers targetType = true ∨ resolver = none)) ∧
      ((RegisterResolver Resolvers targetType resolver).2 = none →
        GoMap.get (RegisterResolver Resolvers targetType resolver).1 targetType = resolver ∧
          ∀ k, k ≠ targetType →
            GoMap.get (RegisterResolver Resolvers targetType resolver).1 k
              = GoMap.get Resolvers k) ∧
      (∀ k r0, GoMap.get Resolvers k = some r0 →
        ∀ later, GoMap.get (registerResolvers Resolvers later) k = some r0) := by
  refine ⟨?_, ?_, ?_⟩
  · unfold RegisterResolver
    by_cases hdup : GoMap.has Resolvers targetType = true
    · simp [hdup]
    · cases resolver with
      | none => simp [hdup]
      | some f => simp [hdup]
  · intro hok
    unfold RegisterResolver at hok ⊢
    by_cases hdup : GoMap.has Resolvers targetType = true
    · simp [hdup] at hok
    · cases resolver with
      | none => simp [hdup] at hok
      | some f =>
        simp only [hdup, Bool.false_eq_true, if_false]
        exact ⟨GoMap.get_set_self _ _ _, fun k hk => GoMap.get_set_ne _ _ _ _ hk⟩
  · intro k r0 h later
    exact registerResolvers_keeps later Resolvers k r0 h

/-- C16 at the registration of `sampleResolver`: it is stored under `sample`, and it is
still there after a second registration under `sample`, a nil registration and
a registration under `other`. -/
theorem RegisterResolver_write_once_witness :
    GoMap.get (RegisterResolver ([] : GoMap String (Resolver Unit)) "sample"
        (some sampleResolver)).1 "sample" = some sampleResolver ∧
      GoMap.get (registerResolvers sampleResolvers sampleResolverCalls) "sample"
        = some sampleResolver :=
  ⟨((RegisterResolver_write_once ([] : GoMap String (Resolver Unit)) "sample"
      (some sampleResolver)).2.1 rfl).1,
    (RegisterResolver_write_once sampleResolvers "other" none).2.2 "sample" sampleResolver
      rfl sampleResolverCalls⟩

/-! ## The Python resolver -/

/-- C17 fails as stated.  For a requirement whose payload is the empty object the JSON
calls leave `req` as declared, and the Python resolver returns a nil error and a
non-nil target whose `ToRepoCloneURL` is empty. -/
theorem pythonResolve_empty_clone_url :
    pythonEnv.Resolve requirement.zero fauxPackage pythonRegistry bareRequirement sampleRepo ()
      = (some ⟨"", "python", "PythonPackage", "", ""⟩, none) := by
  decide

/-- C17 as amended.  The Python resolver returns a non-nil target exactly for a dependency of
target type `python-requirement`, whatever the payload; the error is then nil,
the target's `ToRepoCloneURL` is the field `RepoURL` of the requirement decoded
from the payload, so that it is non-empty exactly when that field is, and the
other fields are the name and type of `FauxPackage` and two empty strings; for a
dependency of any other target type it returns a nil target and the error that
names the target type. -/
theorem pythonResolve_target {Ctx : Type} (req : requirement) (fauxPackage : SourceUnit)
    (s : Registry) (dep : RawDependency) (c : Repository) (x : Ctx) :
    ((pythonEnv.Resolve req fauxPackage s dep c x).1 ≠ none
        ↔ dep.TargetType = "python-requirement") ∧
      (∀ rt, (pythonEnv.Resolve req fauxPackage s dep c x).1 = some rt →
        (pythonEnv.Resolve req fauxPackage s dep c x).2 = none ∧
          rt = ⟨req.RepoURL, fauxPackage.Name, «Type» s fauxPackage, "", ""⟩ ∧
          (rt.ToRepoCloneURL ≠ "" ↔ req.RepoURL ≠ "")) ∧
      (dep.TargetType ≠ "python-requirement" →
        pythonEnv.Resolve req fauxPackage s dep c x
          = (none, some ("Unexpected target type for Python: " ++ dep.TargetType))) := by
  by_cases ht : dep.TargetType = "python-requirement"
  · have hres : pythonEnv.Resolve req fauxPackage s dep c x
        = (some ⟨req.RepoURL, fauxPackage.Name, «Type» s fauxPackage, "", ""⟩, none) := by
      simp [pythonEnv.Resolve, pythonRequirementTargetType, ht]
    rw [hres]
    refine ⟨⟨fun _ => ht, fun _ => by simp⟩, ?_, fun hne => absurd ht hne⟩
    intro rt hrt
    simp only [Option.some.injEq] at hrt
    subst hrt
    exact ⟨rfl, rfl, Iff.rfl⟩
  · have hres : pythonEnv.Resolve req fauxPackage s dep c x
        = (none, some ("Unexpected target type for Python: " ++ dep.TargetType)) := by
      simp [pythonEnv.Resolve, pythonRequirementTargetType, ht]
    rw [hres]
    refine ⟨⟨fun h => absurd rfl h, fun h => absurd h ht⟩, ?_, fun _ => rfl⟩
    intro rt hrt
    cases hrt

/-- C17 as amended, at a requirement whose decoded `RepoURL` is `git://host/lib`, where the
target is non-nil and carries that URL, and at a dependency of target type
`sample`, where the target is nil. -/
theorem pythonResolve_target_witness :
    ((pythonEnv.Resolve libRequirement fauxPackage pythonRegistry libDependency sampleRepo
          ()).2 = none ∧
        (⟨"git://host/lib", "python", "PythonPackage", "", ""⟩ : ResolvedTarget)
          = ⟨libRequirement.RepoURL, fauxPackage.Name, «Type» pythonRegistry fauxPackage,
              "", ""⟩ ∧
        ((⟨"git://host/lib", "python", "PythonPackage", "", ""⟩ :
            ResolvedTarget).ToRepoCloneURL ≠ ""
          ↔ libRequirement.RepoURL ≠ "")) ∧
      pythonEnv.Resolve libRequirement fauxPackage pythonRegistry (sampleDep "a") sampleRepo ()
        = (none, some "Unexpected target type for Python: sample") :=
  ⟨(pythonResolve_target libRequirement fauxPackage pythonRegistry libDependency sampleRepo
      ()).2.1 ⟨"git://host/lib", "python", "PythonPackage", "", ""⟩ (by decide),
    ((pythonResolve_target libRequirement fauxPackage pythonRegistry (sampleDep "a") sampleRepo
      ()).2.2 (by decide)).trans (by decide)⟩

/-! ## The rule maker registry -/

/-- C18.  From the empty registry, after any sequence of `RegisterRuleMaker` calls,
`ruleMakerNames` and `orderedRuleMakers` have the same length, which is the
number of keys of `RuleMakers`; the names are pairwise distinct; at every index
`i` of `orderedRuleMakers` there is a name `ruleMakerNames[i]`, and `RuleMakers`
maps it to `orderedRuleMakers[i]`; `CreateMakefile` does not panic on the index
expression; and a panicking call changes nothing. -/
theorem registerRuleMakers_invariant (calls : List RuleMakerCall) :
    (registerRuleMakers BuildState.empty calls).ruleMakerNames.length
        = (registerRuleMakers BuildState.empty calls).orderedRuleMakers.length ∧
      (registerRuleMakers BuildState.empty calls).orderedRuleMakers.length
        = GoMap.len (registerRuleMakers BuildState.empty calls).RuleMakers ∧
      (registerRuleMakers BuildState.empty calls).ruleMakerNames.Nodup ∧
      (∀ i, i < (registerRuleMakers BuildState.empty calls).orderedRuleMakers.length →
        ∃ n, (registerRuleMakers BuildState.empty calls).ruleMakerNames[i]? = some n ∧
          GoMap.get (registerRuleMakers BuildState.empty calls).RuleMakers n
            = (registerRuleMakers BuildState.empty calls).orderedRuleMakers[i]?) ∧
      (∀ buildDataDir c,
        CreateMakefile (registerRuleMakers BuildState.empty calls) buildDataDir c
          ≠ CreateResult.panicked) ∧
      (∀ s name r, (RegisterRuleMaker s name r).2 ≠ none →
        (RegisterRuleMaker s name r).1 = s) := by
  obtain ⟨hlen, hnodup, hkeys, hsize, _, hget⟩ :=
    BuildInv_registerRuleMakers calls BuildState.empty BuildInv_empty
  refine ⟨hlen, ?_, hnodup, ?_, ?_, RegisterRuleMaker_panic⟩
  · unfold GoMap.len GoMap.keys
    rw [List.Nodup.dedup hkeys, List.length_map, hsize, hlen]
  · intro i hi
    have hi' : i < (registerRuleMakers BuildState.empty calls).ruleMakerNames.length := by
      rw [hlen]
      exact hi
    refine ⟨(registerRuleMakers BuildState.empty calls).ruleMakerNames[i],
      List.getElem?_eq_getElem hi', ?_⟩
    rw [List.getElem?_eq_getElem hi]
    exact hget i _ _ (List.getElem?_eq_getElem hi') (List.getElem?_eq_getElem hi)
  · intro buildDataDir c hpanic
    unfold CreateMakefile at hpanic
    have hin := makerLoop_in_bounds c buildDataDir
      (registerRuleMakers BuildState.empty calls).ruleMakerNames
      (registerRuleMakers BuildState.empty calls).orderedRuleMakers 0 []
      (by rw [hlen]; omega)
    cases hloop : makerLoop c buildDataDir
        (registerRuleMakers BuildState.empty calls).ruleMakerNames
        (registerRuleMakers BuildState.empty calls).orderedRuleMakers 0 [] with
    | indexPanic => exact hin hloop
    | failed err =>
      rw [hloop] at hpanic
      cases hpanic
    | done allRules =>
      rw [hloop] at hpanic
      cases hpanic

/-- C18 at the registrations of `M1` and `M2` with a repeated name and a nil maker in
between: two names, `m1` and `m2`. -/
theorem registerRuleMakers_invariant_witness :
    (registerRuleMakers BuildState.empty sampleMakerCalls).ruleMakerNames = ["m1", "m2"] ∧
      ∃ n, (registerRuleMakers BuildState.empty sampleMakerCalls).ruleMakerNames[1]? = some n ∧
        GoMap.get (registerRuleMakers BuildState.empty sampleMakerCalls).RuleMakers n
          = (registerRuleMakers BuildState.empty sampleMakerCalls).orderedRuleMakers[1]? :=
  ⟨by decide, (registerRuleMakers_invariant sampleMakerCalls).2.2.2.1 1 (by decide)⟩

end Srclib
